import Mathlib

/-!
Verification development for the roadmap-builder repository.

The code under scrutiny is the AI-response normalization and JSON-repair
layer:
  * `repairJson` and `normalizeRoadmap` in `protected/js/chat.js`, together
    with the body of the `POST /api/generate-roadmap` handler of that file;
  * the edge-resolution and node-canonicalization blocks of the
    `POST /api/generate-roadmap` handler in `server-patch.js`.

JavaScript runtime values are modelled by the inductive type `JSValue`.
Machine reals are not involved: the only numbers appearing in this layer are
array lengths and step indices, so JSON numbers are modelled by `Int`
(a faithful restriction: none of the verified code produces or consumes
fractional numbers).  Property access on `null`/`undefined`, which throws a
`TypeError` in JavaScript, is modelled by `Except` with error `JSError.typeError`.
-/

/-- Model of a JavaScript runtime value (JSON values plus `undefined`). -/
inductive JSValue : Type where
  | undef : JSValue
  | null : JSValue
  | bool : Bool → JSValue
  | num : Int → JSValue
  | str : String → JSValue
  | arr : List JSValue → JSValue
  | obj : List (String × JSValue) → JSValue
deriving Repr

mutual

/-- Structural equality test for `JSValue` (decidable equality is derived from it). -/
def jsEq : JSValue → JSValue → Bool
  | .undef, .undef => true
  | .null, .null => true
  | .bool a, .bool b => a == b
  | .num a, .num b => a == b
  | .str a, .str b => a == b
  | .arr a, .arr b => jsEqList a b
  | .obj a, .obj b => jsEqFields a b
  | _, _ => false

/-- Elementwise `jsEq` on lists of values. -/
def jsEqList : List JSValue → List JSValue → Bool
  | [], [] => true
  | x :: xs, y :: ys => jsEq x y && jsEqList xs ys
  | _, _ => false

/-- Elementwise `jsEq` on key-value field lists. -/
def jsEqFields : List (String × JSValue) → List (String × JSValue) → Bool
  | [], [] => true
  | (k, v) :: xs, (l, w) :: ys => k == l && jsEq v w && jsEqFields xs ys
  | _, _ => false

end

/-- Induction principle for `JSValue` exposing the nested lists through
membership hypotheses. -/
theorem JSValue.indOn {P : JSValue → Prop}
    (hu : P .undef) (hn : P .null) (hb : ∀ b, P (.bool b)) (hm : ∀ n, P (.num n))
    (hs : ∀ s, P (.str s))
    (ha : ∀ xs, (∀ x ∈ xs, P x) → P (.arr xs))
    (ho : ∀ fs, (∀ kv ∈ fs, P kv.2) → P (.obj fs)) :
    ∀ v, P v
  | .undef => hu
  | .null => hn
  | .bool b => hb b
  | .num n => hm n
  | .str s => hs s
  | .arr xs => ha xs (fun x hx =>
      have : sizeOf x < sizeOf (JSValue.arr xs) := by
        have := List.sizeOf_lt_of_mem hx
        simp only [JSValue.arr.sizeOf_spec]
        omega
      JSValue.indOn hu hn hb hm hs ha ho x)
  | .obj fs => ho fs (fun kv hkv =>
      have : sizeOf kv.2 < 1 + sizeOf fs := by
        have h1 := List.sizeOf_lt_of_mem hkv
        have h2 : sizeOf kv.2 < sizeOf kv := by
          obtain ⟨a, b⟩ := kv
          simp only [Prod.mk.sizeOf_spec]
          omega
        omega
      JSValue.indOn hu hn hb hm hs ha ho kv.2)
termination_by v => sizeOf v

/-- `jsEqList` is elementwise equality, given that `jsEq` is equality on the
elements. -/
theorem jsEqList_iff (xs : List JSValue)
    (ih : ∀ x ∈ xs, ∀ b, jsEq x b = true ↔ x = b) :
    ∀ ys, jsEqList xs ys = true ↔ xs = ys := by
  induction xs with
  | nil => intro ys; cases ys <;> simp [jsEqList]
  | cons x xs ihl =>
    intro ys
    cases ys with
    | nil => simp [jsEqList]
    | cons y ys =>
      have hx := ih x (by simp)
      have hrest := ihl (fun z hz b => ih z (by simp [hz]) b) ys
      simp [jsEqList, hx, hrest]

/-- `jsEqFields` is elementwise equality, given that `jsEq` is equality on
the field values. -/
theorem jsEqFields_iff (fs : List (String × JSValue))
    (ih : ∀ kv ∈ fs, ∀ b, jsEq kv.2 b = true ↔ kv.2 = b) :
    ∀ gs, jsEqFields fs gs = true ↔ fs = gs := by
  induction fs with
  | nil => intro gs; cases gs <;> simp [jsEqFields]
  | cons kv fs ihl =>
    intro gs
    cases gs with
    | nil => obtain ⟨k, v⟩ := kv; simp [jsEqFields]
    | cons lw gs =>
      obtain ⟨k, v⟩ := kv
      obtain ⟨l, w⟩ := lw
      have hv := ih (k, v) (by simp) w
      have hrest := ihl (fun z hz b => ih z (by simp [hz]) b) gs
      simp [jsEqFields, hrest, hv, Prod.ext_iff]

/-- `jsEq` decides equality of `JSValue`. -/
theorem jsEq_iff : ∀ a b : JSValue, jsEq a b = true ↔ a = b := by
  intro a
  induction a using JSValue.indOn with
  | hu => intro b; cases b <;> simp [jsEq]
  | hn => intro b; cases b <;> simp [jsEq]
  | hb x => intro b; cases b <;> simp [jsEq]
  | hm n => intro b; cases b <;> simp [jsEq]
  | hs s => intro b; cases b <;> simp [jsEq]
  | ha xs ih =>
    intro b
    cases b <;> simp [jsEq]
    exact jsEqList_iff xs ih _
  | ho fs ih =>
    intro b
    cases b <;> simp [jsEq]
    exact jsEqFields_iff fs ih _

instance : DecidableEq JSValue := fun a b => decidable_of_iff _ (jsEq_iff a b)

instance {ε α : Type} [DecidableEq ε] [DecidableEq α] : DecidableEq (Except ε α) :=
  fun a b =>
    match a, b with
    | .ok x, .ok y => decidable_of_iff (x = y) (by simp)
    | .error x, .error y => decidable_of_iff (x = y) (by simp)
    | .ok _, .error _ => isFalse (by simp)
    | .error _, .ok _ => isFalse (by simp)

/-- Model of a thrown JavaScript `TypeError` (property access on a nullish base). -/
inductive JSError : Type where
  | typeError : JSError
deriving DecidableEq, Repr

/-- JavaScript truthiness: `undefined`, `null`, `false`, `0`, and the empty
string are falsy; every other value (including every object and array) is truthy. -/
def jsTruthy : JSValue → Bool
  | .undef => false
  | .null => false
  | .bool b => b
  | .num n => n != 0
  | .str s => s != ""
  | .arr _ => true
  | .obj _ => true

/-- Model of the JavaScript expression `a || b`. -/
def jsOr (a b : JSValue) : JSValue :=
  if jsTruthy a then a else b

/-- Total property access: own properties of objects (first matching key),
the `length` property of arrays and strings, `undefined` everywhere else.
The throwing cases (`null`/`undefined` base) are handled by `getPropE`. -/
def getProp : JSValue → String → JSValue
  | .obj fs, k => ((fs.lookup k).getD .undef)
  | .arr xs, k => if k = "length" then .num xs.length else .undef
  | .str s, k => if k = "length" then .num s.length else .undef
  | _, _ => (.undef)

/-- Property access as evaluated by JavaScript: accessing a property of
`null` or `undefined` throws a `TypeError`; otherwise it is `getProp`. -/
def getPropE (v : JSValue) (k : String) : Except JSError JSValue :=
  match v with
  | .null => .error .typeError
  | .undef => .error .typeError
  | _ => .ok (getProp v k)

/-- Is the value an array (the model of `Array.isArray`)? -/
def isArray : JSValue → Bool
  | .arr _ => true
  | _ => false

/-- Is the value a string (the model of `typeof v === "string"`)? -/
def isString : JSValue → Bool
  | .str _ => true
  | _ => false

/-!
## The Roadmap Normalizer of `protected/js/chat.js`

Source (`normalizeRoadmap`):
```
  const nodes =
      Array.isArray(raw.nodes) ? raw.nodes :
      Array.isArray(raw.steps) ? raw.steps.map((s, i) => (\x7b
          id: `step_$\x7bi + 1\x7d`,
          title: typeof s === 'string' ? s : s.title || `Step $\x7bi + 1\x7d`,
          description: s.description || '',
          duration: s.duration || '',
          type: 'task',
          resources: s.resources || []
      \x7d)) : [];
  const edges = [];
  for (let i = 0; i < nodes.length - 1; i++) \x7b
      edges.push(\x7b source: nodes[i].id, target: nodes[i + 1].id, label: 'Then' \x7d);
  \x7d
  return \x7b title: raw.title || 'AI Generated Roadmap', description: raw.description || '',
           nodes, edges, estimatedTotalDuration: raw.estimatedTotalDuration || '',
           difficulty: raw.difficulty || 'beginner', category: raw.category || 'general' \x7d;
```
-/

/-- One mapped entry of the `steps` array (`raw.steps.map((s, i) => ...)`),
with `i` the zero-based index.  Field order and evaluation order follow the
object literal in the source. -/
def stepFromEntry (s : JSValue) (i : Nat) : Except JSError JSValue := do
  let title ←
    match s with
    | .str t => pure (JSValue.str t)
    | _ => do
      let t ← getPropE s "title"
      pure (jsOr t (.str ("Step " ++ toString (i + 1))))
  let desc ← getPropE s "description"
  let dur ← getPropE s "duration"
  let res ← getPropE s "resources"
  pure (.obj [
    ("id", .str ("step_" ++ toString (i + 1))),
    ("title", title),
    ("description", jsOr desc (.str "")),
    ("duration", jsOr dur (.str "")),
    ("type", .str "task"),
    ("resources", jsOr res (.arr []))])

/-- Maps the `steps` array through `stepFromEntry`, threading the index. -/
def stepsToNodes : List JSValue → Nat → Except JSError (List JSValue)
  | [], _ => .ok []
  | s :: rest, i => do
    let n ← stepFromEntry s i
    let ns ← stepsToNodes rest (i + 1)
    pure (n :: ns)

/-- The node-resolution conditional of `normalizeRoadmap`: prefer `raw.nodes`
when it is an array, else map `raw.steps` when it is an array, else `[]`. -/
def resolveNodes (raw : JSValue) : Except JSError (List JSValue) := do
  let ns ← getPropE raw "nodes"
  match ns with
  | .arr xs => pure xs
  | _ => do
    let ss ← getPropE raw "steps"
    match ss with
    | .arr ys => stepsToNodes ys 0
    | _ => pure []

/-- The edge-synthesis loop shared verbatim by `normalizeRoadmap` in
`chat.js` and the `generate-roadmap` handler in `server-patch.js`:
for `i` from `0` to `nodes.length - 2`, push
`\x7bsource: nodes[i].id, target: nodes[i+1].id, label: 'Then'\x7d`. -/
def buildChain : List JSValue → Except JSError (List JSValue)
  | [] => .ok []
  | [_] => .ok []
  | a :: b :: rest => do
    let s ← getPropE a "id"
    let t ← getPropE b "id"
    let es ← buildChain (b :: rest)
    pure (.obj [("source", s), ("target", t), ("label", .str "Then")] :: es)

/-- One scalar line of the returned literal: `raw.<k> || '<d>'`. -/
def scalarOr (raw : JSValue) (k : String) (d : String) : Except JSError JSValue := do
  let v ← getPropE raw k
  pure (jsOr v (.str d))

/-- `normalizeRoadmap` of `protected/js/chat.js`.  Property accesses that
JavaScript would perform on `null`/`undefined` surface as `JSError`. -/
def normalizeRoadmap (raw : JSValue) : Except JSError JSValue := do
  let nodes ← resolveNodes raw
  let edges ← buildChain nodes
  let title ← scalarOr raw "title" "AI Generated Roadmap"
  let desc ← scalarOr raw "description" ""
  let etd ← scalarOr raw "estimatedTotalDuration" ""
  let diff ← scalarOr raw "difficulty" "beginner"
  let cat ← scalarOr raw "category" "general"
  pure (.obj [
    ("title", title),
    ("description", desc),
    ("nodes", .arr nodes),
    ("edges", .arr edges),
    ("estimatedTotalDuration", etd),
    ("difficulty", diff),
    ("category", cat)])

/-!
## The `generate-roadmap` handler blocks of `server-patch.js`

Source, after `JSON.parse` and the check that `roadmap.nodes` is an array:
```
  if (!roadmap.edges || roadmap.edges.length === 0) \x7b
      roadmap.edges = [];
      for (let i = 0; i < roadmap.nodes.length - 1; i++) \x7b
          roadmap.edges.push(\x7b source: roadmap.nodes[i].id,
                              target: roadmap.nodes[i + 1].id, label: 'Then' \x7d);
      \x7d
  \x7d
  roadmap.nodes = roadmap.nodes.map((node, index) => (\x7b
      id: node.id || `step_$\x7bindex + 1\x7d`,
      title: node.title || `Step $\x7bindex + 1\x7d`,
      description: node.description || '',
      duration: node.duration || '',
      type: node.type || 'task',
      resources: node.resources || [],
      ...node
  \x7d));
```
-/

/-- Fields contributed by an object spread `...v`: an object spreads its own
fields, a string or array spreads index-keyed entries, primitives spread
nothing. -/
def spreadFields : JSValue → List (String × JSValue)
  | .obj fs => fs
  | .str s => (List.range s.length).map
      (fun i => (toString i, .str (String.mk [s.data.getD i ' '])))
  | .arr xs => (List.range xs.length).map
      (fun i => (toString i, xs.getD i .undef))
  | _ => []

/-- Assignment of one field into an object field list: an existing key keeps
its position and receives the new value, a new key is appended. -/
def upsertField : List (String × JSValue) → String → JSValue → List (String × JSValue)
  | [], k, v => [(k, v)]
  | (k0, v0) :: fs, k, v =>
    if k0 = k then (k0, v) :: fs else (k0, v0) :: upsertField fs k v

/-- Folds `upsertField` over a list of assignments (left to right). -/
def upsertAll (base : List (String × JSValue)) : List (String × JSValue) → List (String × JSValue)
  | [] => base
  | (k, v) :: rest => upsertAll (upsertField base k v) rest

/-- One mapped node of the `server-patch.js` handler
(`roadmap.nodes.map((node, index) => (\x7b ..defaults.., ...node \x7d))`).
The literal is built top to bottom and the trailing spread `...node`
overwrites the defaulted fields with the node's own fields. -/
def patchNormalizeNode (node : JSValue) (index : Nat) : Except JSError JSValue := do
  let id ← getPropE node "id"
  let title ← getPropE node "title"
  let desc ← getPropE node "description"
  let dur ← getPropE node "duration"
  let ty ← getPropE node "type"
  let res ← getPropE node "resources"
  let base : List (String × JSValue) := [
    ("id", jsOr id (.str ("step_" ++ toString (index + 1)))),
    ("title", jsOr title (.str ("Step " ++ toString (index + 1)))),
    ("description", jsOr desc (.str "")),
    ("duration", jsOr dur (.str "")),
    ("type", jsOr ty (.str "task")),
    ("resources", jsOr res (.arr []))]
  pure (.obj (upsertAll base (spreadFields node)))

/-- The edge-resolution block of the `server-patch.js` handler:
`if (!roadmap.edges || roadmap.edges.length === 0)` synthesize the chain over
`nodes`, otherwise keep the supplied `edges` value.  `nodes` is the already
validated `roadmap.nodes` array. -/
def patchResolveEdges (nodes : List JSValue) (edges : JSValue) : Except JSError JSValue :=
  if !jsTruthy edges then (buildChain nodes).map .arr
  else if getProp edges "length" = .num 0 then (buildChain nodes).map .arr
  else .ok edges

example : normalizeRoadmap (.obj []) = .ok (.obj [
    ("title", .str "AI Generated Roadmap"),
    ("description", .str ""),
    ("nodes", .arr []),
    ("edges", .arr []),
    ("estimatedTotalDuration", .str ""),
    ("difficulty", .str "beginner"),
    ("category", .str "general")]) := by decide

example : normalizeRoadmap (.obj [("steps", .arr [.str "Read docs", .str "Build a CLI"])]) =
    .ok (.obj [
    ("title", .str "AI Generated Roadmap"),
    ("description", .str ""),
    ("nodes", .arr [
      .obj [("id", .str "step_1"), ("title", .str "Read docs"), ("description", .str ""),
            ("duration", .str ""), ("type", .str "task"), ("resources", .arr [])],
      .obj [("id", .str "step_2"), ("title", .str "Build a CLI"), ("description", .str ""),
            ("duration", .str ""), ("type", .str "task"), ("resources", .arr [])]]),
    ("edges", .arr [
      .obj [("source", .str "step_1"), ("target", .str "step_2"), ("label", .str "Then")]]),
    ("estimatedTotalDuration", .str ""),
    ("difficulty", .str "beginner"),
    ("category", .str "general")]) := by decide

example : normalizeRoadmap .null = .error .typeError := by decide
example : normalizeRoadmap (.obj [("steps", .arr [.null])]) = .error .typeError := by decide

example : patchNormalizeNode (.obj [("id", .str "x")]) 0 = .ok (.obj [
    ("id", .str "x"), ("title", .str "Step 1"), ("description", .str ""),
    ("duration", .str ""), ("type", .str "task"), ("resources", .arr [])]) := by decide

example : patchResolveEdges [] (.str "ab") = .ok (.str "ab") := by decide

/-!
## A model of the JSON platform functions

`chat.js` calls the host functions `JSON.parse` and (indirectly, through the
round-trip property of the specification) `JSON.stringify`.  They are not
source of this repository, so they are modelled here by an executable parser
and printer over `JSValue`.  Faithful restrictions of the model, none of
which is exercised by the claims: numbers are integers (no fraction or
exponent syntax), the printer escapes the quote, backslash, newline, tab and
carriage-return characters but leaves other control characters raw, and the
parser does not accept `\u` escape sequences. -/

/-- JSON whitespace. -/
def isWs (c : Char) : Bool :=
  c = ' ' || c = '\n' || c = '\t' || c = '\r'

/-- Drops leading JSON whitespace. -/
def skipWs (cs : List Char) : List Char :=
  cs.dropWhile isWs

/-- ASCII digit test. -/
def isDigit (c : Char) : Bool :=
  '0' ≤ c && c ≤ '9'

/-- Numeric value of an ASCII digit. -/
def digitVal (c : Char) : Nat :=
  c.toNat - 48

/-- The ASCII digit of a value below ten. -/
def digitChar : Nat → Char
  | 0 => '0' | 1 => '1' | 2 => '2' | 3 => '3' | 4 => '4'
  | 5 => '5' | 6 => '6' | 7 => '7' | 8 => '8' | _ => '9'

/-- Decimal digits of a natural number, most significant first
(fuel-indexed so that the kernel can evaluate it; `n + 1` fuel suffices). -/
def natCharsAux : Nat → Nat → List Char
  | 0, _ => []
  | f + 1, n =>
    if n < 10 then [digitChar n] else natCharsAux f (n / 10) ++ [digitChar (n % 10)]

/-- Decimal digits of a natural number, most significant first. -/
def natChars (n : Nat) : List Char :=
  natCharsAux (n + 1) n

/-- Decimal rendering of an integer. -/
def intChars (n : Int) : List Char :=
  if n < 0 then '-' :: natChars n.natAbs else natChars n.natAbs

/-- Accumulating decimal evaluation of a maximal digit prefix; returns the
value together with the rest of the input. -/
def parseDigits : List Char → Nat → Nat × List Char
  | [], acc => (acc, [])
  | c :: cs, acc =>
    if isDigit c then parseDigits cs (acc * 10 + digitVal c) else (acc, c :: cs)

/-- Does the input start with an ASCII digit? -/
def startsDigit : List Char → Bool
  | [] => false
  | c :: _ => isDigit c

/-- Parses a JSON number token (integer form). -/
def parseNum (cs : List Char) : Option (JSValue × List Char) :=
  match cs with
  | [] => none
  | c :: rest =>
    if c = '-' then
      if startsDigit rest then
        let p := parseDigits rest 0
        some (.num (-(p.1 : Int)), p.2)
      else none
    else if isDigit c then
      let p := parseDigits (c :: rest) 0
      some (.num ((p.1 : Int)), p.2)
    else none

/-- The escape sequence the printer emits for one string character. -/
def escChar (c : Char) : List Char :=
  if c = '"' then ['\\', '"']
  else if c = '\\' then ['\\', '\\']
  else if c = '\n' then ['\\', 'n']
  else if c = '\t' then ['\\', 't']
  else if c = '\r' then ['\\', 'r']
  else [c]

/-- Escaped rendering of the characters of a string. -/
def escList : List Char → List Char
  | [] => []
  | c :: cs => escChar c ++ escList cs

/-- Resolution of a two-character escape sequence. -/
def unescape (c : Char) : Option Char :=
  if c = '"' then some '"'
  else if c = '\\' then some '\\'
  else if c = '/' then some '/'
  else if c = 'n' then some '\n'
  else if c = 't' then some '\t'
  else if c = 'r' then some '\r'
  else if c = 'b' then some (Char.ofNat 8)
  else if c = 'f' then some (Char.ofNat 12)
  else none

/-- Parses the body of a JSON string after the opening quote; returns the
content characters and the input after the closing quote. -/
def parseStringBody : List Char → Option (List Char × List Char)
  | [] => none
  | c :: rest =>
    if c = '"' then some ([], rest)
    else if c = '\\' then
      match rest with
      | [] => none
      | e :: rest2 => do
        let u ← unescape e
        let (s, r) ← parseStringBody rest2
        pure (u :: s, r)
    else do
      let (s, r) ← parseStringBody rest
      pure (c :: s, r)

/-- Drops an expected literal (used for `true`, `false`, `null`). -/
def dropLit : List Char → List Char → Option (List Char)
  | [], cs => some cs
  | l :: ls, c :: cs => if c = l then dropLit ls cs else none
  | _ :: _, [] => none

/-- Adds one parsed object member the way a JavaScript object literal does:
a key already present keeps its first position and the later value wins. -/
def consMember (k : String) (v : JSValue) (fs : List (String × JSValue)) :
    List (String × JSValue) :=
  match fs.lookup k with
  | some w => (k, w) :: List.eraseP (fun kv => kv.1 = k) fs
  | none => (k, v) :: fs

mutual

/-- Fuel-indexed JSON value parser over the remaining input. -/
def parseValue : Nat → List Char → Option (JSValue × List Char)
  | 0, _ => none
  | f + 1, cs =>
    match skipWs cs with
    | [] => none
    | c :: rest =>
      if c = '{' then
        match skipWs rest with
        | [] => none
        | c2 :: r2 =>
          if c2 = '}' then some (.obj [], r2)
          else (parseMembers f (c2 :: r2)).map (fun p => (.obj p.1, p.2))
      else if c = '[' then
        match skipWs rest with
        | [] => none
        | c2 :: r2 =>
          if c2 = ']' then some (.arr [], r2)
          else (parseElems f (c2 :: r2)).map (fun p => (.arr p.1, p.2))
      else if c = '"' then
        (parseStringBody rest).map (fun p => (.str (String.mk p.1), p.2))
      else if c = 't' then (dropLit ['r', 'u', 'e'] rest).map ((JSValue.bool true, ·))
      else if c = 'f' then (dropLit ['a', 'l', 's', 'e'] rest).map ((JSValue.bool false, ·))
      else if c = 'n' then (dropLit ['u', 'l', 'l'] rest).map ((JSValue.null, ·))
      else parseNum (c :: rest)

/-- Parses a nonempty member list of a JSON object, up to and including the
closing brace. -/
def parseMembers : Nat → List Char → Option (List (String × JSValue) × List Char)
  | 0, _ => none
  | f + 1, cs =>
    match skipWs cs with
    | [] => none
    | c :: rest =>
      if c = '"' then do
        let (kcs, r1) ← parseStringBody rest
        match skipWs r1 with
        | [] => none
        | c2 :: r2 =>
          if c2 = ':' then do
            let (v, r3) ← parseValue f r2
            match skipWs r3 with
            | [] => none
            | c3 :: r4 =>
              if c3 = ',' then do
                let (fs, r5) ← parseMembers f r4
                pure (consMember (String.mk kcs) v fs, r5)
              else if c3 = '}' then pure ([(String.mk kcs, v)], r4)
              else none
          else none
      else none

/-- Parses a nonempty element list of a JSON array, up to and including the
closing bracket. -/
def parseElems : Nat → List Char → Option (List JSValue × List Char)
  | 0, _ => none
  | f + 1, cs => do
    let (v, r1) ← parseValue f cs
    match skipWs r1 with
    | [] => none
    | c :: r2 =>
      if c = ',' then do
        let (vs, r3) ← parseElems f r2
        pure (v :: vs, r3)
      else if c = ']' then pure ([v], r2)
      else none

end

mutual

/-- Fuel sufficient for `parseValue` to parse the printed form of a value. -/
def fuelV : JSValue → Nat
  | .arr xs => 1 + fuelE xs
  | .obj fs => 1 + fuelM fs
  | _ => 1

/-- Fuel sufficient for `parseElems` on a printed element list. -/
def fuelE : List JSValue → Nat
  | [] => 1
  | x :: xs => 1 + max (fuelV x) (fuelE xs)

/-- Fuel sufficient for `parseMembers` on a printed member list. -/
def fuelM : List (String × JSValue) → Nat
  | [] => 1
  | (_, v) :: fs => 1 + max (fuelV v) (fuelM fs)

end

/-- The model of `JSON.parse`: parse one value, allow trailing whitespace,
reject any other trailing input.  `none` models a thrown `SyntaxError`. -/
def jsonParse (t : String) : Option JSValue :=
  match parseValue (t.data.length + 1) t.data with
  | some (v, rest) => if skipWs rest = [] then some v else none
  | none => none

mutual

/-- The model of `JSON.stringify` (character list form, no pretty spacing). -/
def printChars : JSValue → List Char
  | .undef => ("null").data
  | .null => ("null").data
  | .bool true => ("true").data
  | .bool false => ("false").data
  | .num n => intChars n
  | .str s => '"' :: (escList s.data ++ ['"'])
  | .arr xs => '[' :: (printElems xs ++ [']'])
  | .obj fs => '{' :: (printMembers fs ++ ['}'])

/-- Comma-separated rendering of array elements. -/
def printElems : List JSValue → List Char
  | [] => []
  | [x] => printChars x
  | x :: xs => printChars x ++ ',' :: printElems xs

/-- Comma-separated rendering of object members. -/
def printMembers : List (String × JSValue) → List Char
  | [] => []
  | [(k, v)] => '"' :: (escList k.data ++ '"' :: ':' :: printChars v)
  | (k, v) :: fs => '"' :: (escList k.data ++ '"' :: ':' :: printChars v) ++
      ',' :: printMembers fs

end

/-- The model of `JSON.stringify` as a `String`. -/
def stringify (v : JSValue) : String :=
  String.mk (printChars v)

mutual

/-- No `undefined` occurs in the value (true of every `JSON.parse` result). -/
def noUndef : JSValue → Bool
  | .undef => false
  | .null => true
  | .bool _ => true
  | .num _ => true
  | .str _ => true
  | .arr xs => jsListAll xs
  | .obj fs => jsFieldsAll fs

/-- `noUndef` over a list of values. -/
def jsListAll : List JSValue → Bool
  | [] => true
  | x :: xs => noUndef x && jsListAll xs

/-- `noUndef` over the values of a field list. -/
def jsFieldsAll : List (String × JSValue) → Bool
  | [] => true
  | (_, v) :: fs => noUndef v && jsFieldsAll fs

end

/-- No duplicate keys in a key list. -/
def keysDistinct : List String → Bool
  | [] => true
  | k :: ks => !(ks.contains k) && keysDistinct ks

mutual

/-- Every object of the value has pairwise distinct keys (true of every value
that originates from a JavaScript object graph). -/
def keysOk : JSValue → Bool
  | .arr xs => keysOkList xs
  | .obj fs => keysDistinct (fs.map Prod.fst) && keysOkFields fs
  | _ => true

/-- `keysOk` over a list of values. -/
def keysOkList : List JSValue → Bool
  | [] => true
  | x :: xs => keysOk x && keysOkList xs

/-- `keysOk` over the values of a field list. -/
def keysOkFields : List (String × JSValue) → Bool
  | [] => true
  | (_, v) :: fs => keysOk v && keysOkFields fs

end

example : jsonParse "\x7b\x7d" = some (.obj []) := by decide
example : jsonParse " \x7b \"a\" : [1, -2, true, null] \x7d " =
    some (.obj [("a", .arr [.num 1, .num (-2), .bool true, .null])]) := by decide
example : jsonParse "Sorry" = none := by decide
example : stringify (.obj [("a", .arr [.num 1, .num (-2)])]) = "\x7b\"a\":[1,-2]\x7d" := by decide
example : jsonParse (stringify (.obj [("k", .str "a\"b\\c")])) =
    some (.obj [("k", .str "a\"b\\c")]) := by decide
example : jsonParse "\x7b\"a\":1,\"a\":2\x7d" = some (.obj [("a", .num 2)]) := by decide

/-!
## The Response Repairer of `protected/js/chat.js`

Source (`repairJson`):
```
  try \x7b
      return JSON.parse(text);
  \x7d catch (_) \x7b
      const match = text.match(/\\\x7b[\\s\\S]*\\\x7d/);
      if (!match) throw new Error('No JSON found');
      return JSON.parse(match[0]);
  \x7d
```
-/

/-- The failure modes of `repairJson`: the explicitly thrown
`Error('No JSON found')`, and a propagated `JSON.parse` `SyntaxError`.
Neither error value depends on the input text. -/
inductive RepairError : Type where
  | noJsonFound : RepairError
  | syntaxError : RepairError
deriving DecidableEq, Repr

/-- The match of the regular expression `/\\\x7b[\\s\\S]*\\\x7d/` against the text:
the span from the first opening brace through the last closing brace, when a
closing brace occurs after the first opening brace; `none` otherwise. -/
def braceSpanChars (cs : List Char) : Option (List Char) :=
  let fromBrace := cs.dropWhile (fun c => !(c = '{'))
  let trimmed := (fromBrace.reverse.dropWhile (fun c => !(c = '}'))).reverse
  if trimmed.isEmpty then none else some trimmed

/-- `braceSpanChars` on strings. -/
def braceSpan (t : String) : Option String :=
  (braceSpanChars t.data).map String.mk

/-- `repairJson` of `protected/js/chat.js`. -/
def repairJson (text : String) : Except RepairError JSValue :=
  match jsonParse text with
  | some v => .ok v
  | none =>
    match braceSpan text with
    | none => .error .noJsonFound
    | some sub =>
      match jsonParse sub with
      | some v => .ok v
      | none => .error .syntaxError

/-!
## The `generate-roadmap` handler core of `protected/js/chat.js`

Source (lines 425-444, the part after the model call):
```
  const parsed = repairJson(aiText);
  const roadmap = normalizeRoadmap(parsed);
  if (roadmap.nodes.length === 0) \x7b
      throw new Error('AI returned no usable steps');
  \x7d
  res.json(\x7b roadmap \x7d);
```
-/

/-- A failure of the `generate-roadmap` request (every branch is caught by
the surrounding `catch` and surfaced as a 500 response). -/
inductive HandlerError : Type where
  | repairFailed : RepairError → HandlerError
  | normalizeFailed : JSError → HandlerError
  | emptyRoadmap : HandlerError
deriving DecidableEq, Repr

/-- The handler core: repair, normalize, reject a zero-node roadmap, answer
with the roadmap otherwise. -/
def generateRoadmapCore (aiText : String) : Except HandlerError JSValue :=
  match repairJson aiText with
  | .error e => .error (.repairFailed e)
  | .ok parsed =>
    match normalizeRoadmap parsed with
    | .error e => .error (.normalizeFailed e)
    | .ok roadmap =>
      if getProp (getProp roadmap "nodes") "length" = .num 0 then .error .emptyRoadmap
      else .ok roadmap

example : repairJson "Sorry, I can\x27t help with that." = .error .noJsonFound := by decide
example : repairJson "x \x7b\"a\": 1\x7d y" = .ok (.obj [("a", .num 1)]) := by decide
example : repairJson "```json\n\x7b\"title\":\"A\",\"steps\":[]\x7d\n```" =
    .ok (.obj [("title", .str "A"), ("steps", .arr [])]) := by decide
example : repairJson "\x7b oops \x7d" = .error .syntaxError := by decide
example : generateRoadmapCore "\x7b\x7d" = .error .emptyRoadmap := by decide
example : braceSpan "a\x7db\x7bc" = none := by decide
example : braceSpan "a\x7bb\x7dc\x7dd" = some "\x7bb\x7dc\x7d" := by decide

/-!
## Characterization of the normalizer output
-/

/-- The edge object pushed by the chain loop for adjacent nodes `a`, `b`. -/
def mkEdge (a b : JSValue) : JSValue :=
  .obj [("source", getProp a "id"), ("target", getProp b "id"), ("label", .str "Then")]

/-- The object literal returned by `normalizeRoadmap`, as a function of the
input and the resolved node and edge lists. -/
def mkRoadmapObj (raw : JSValue) (ns es : List JSValue) : JSValue :=
  .obj [
    ("title", jsOr (getProp raw "title") (.str "AI Generated Roadmap")),
    ("description", jsOr (getProp raw "description") (.str "")),
    ("nodes", .arr ns),
    ("edges", .arr es),
    ("estimatedTotalDuration", jsOr (getProp raw "estimatedTotalDuration") (.str "")),
    ("difficulty", jsOr (getProp raw "difficulty") (.str "beginner")),
    ("category", jsOr (getProp raw "category") (.str "general"))]

theorem getPropE_eq {v : JSValue} (k : String) (h1 : v ≠ .null) (h2 : v ≠ .undef) :
    getPropE v k = .ok (getProp v k) := by
  cases v <;> simp_all [getPropE]

theorem getPropE_ok_eq {v : JSValue} {k : String} {w : JSValue}
    (h : getPropE v k = .ok w) : w = getProp v k := by
  cases v <;> simp_all [getPropE]

theorem resolveNodes_ne_nullish {raw : JSValue} {ns : List JSValue}
    (h : resolveNodes raw = .ok ns) : raw ≠ .null ∧ raw ≠ .undef := by
  constructor <;> rintro rfl <;> simp [resolveNodes, getPropE, bind, Except.bind] at h

theorem scalarOr_eq {raw : JSValue} (k d : String) (h1 : raw ≠ .null) (h2 : raw ≠ .undef) :
    scalarOr raw k d = .ok (jsOr (getProp raw k) (.str d)) := by
  simp [scalarOr, getPropE_eq k h1 h2, bind, Except.bind, pure, Except.pure]

theorem buildChain_ok_eq : ∀ {ns es : List JSValue}, buildChain ns = .ok es →
    es = List.zipWith mkEdge ns ns.tail
  | [], es, h => by simpa [buildChain] using h.symm
  | [a], es, h => by simpa [buildChain] using h.symm
  | a :: b :: rest, es, h => by
    simp only [buildChain, bind, Except.bind] at h
    cases ha : getPropE a "id" with
    | error e => simp [ha] at h
    | ok sa =>
      cases hb : getPropE b "id" with
      | error e => simp [ha, hb] at h
      | ok tb =>
        cases hc : buildChain (b :: rest) with
        | error e => simp [ha, hb, hc] at h
        | ok es2 =>
          simp only [ha, hb, hc, pure, Except.pure, Except.ok.injEq] at h
          have h2 := buildChain_ok_eq hc
          subst h2
          rw [← h]
          simp [mkEdge, getPropE_ok_eq ha, getPropE_ok_eq hb]

theorem normalizeRoadmap_ok {raw r : JSValue} (h : normalizeRoadmap raw = .ok r) :
    ∃ ns es, resolveNodes raw = .ok ns ∧ buildChain ns = .ok es ∧
      r = mkRoadmapObj raw ns es := by
  simp only [normalizeRoadmap, bind, Except.bind] at h
  cases hn : resolveNodes raw with
  | error e => simp [hn] at h
  | ok ns =>
    obtain ⟨hnull, hundef⟩ := resolveNodes_ne_nullish hn
    cases he : buildChain ns with
    | error e => simp [hn, he] at h
    | ok es =>
      refine ⟨ns, es, rfl, he, ?_⟩
      simp only [hn, he, scalarOr_eq _ _ hnull hundef, pure, Except.pure,
        Except.ok.injEq] at h
      rw [← h, mkRoadmapObj]

theorem normalizeRoadmap_ok_of {raw : JSValue} {ns es : List JSValue}
    (hn : resolveNodes raw = .ok ns) (he : buildChain ns = .ok es) :
    normalizeRoadmap raw = .ok (mkRoadmapObj raw ns es) := by
  obtain ⟨hnull, hundef⟩ := resolveNodes_ne_nullish hn
  simp [normalizeRoadmap, bind, Except.bind, hn, he, scalarOr_eq _ _ hnull hundef,
    pure, Except.pure, mkRoadmapObj]

theorem getProp_mkRoadmapObj_nodes (raw : JSValue) (ns es : List JSValue) :
    getProp (mkRoadmapObj raw ns es) "nodes" = .arr ns := by
  simp [mkRoadmapObj, getProp, List.lookup]

theorem getProp_mkRoadmapObj_edges (raw : JSValue) (ns es : List JSValue) :
    getProp (mkRoadmapObj raw ns es) "edges" = .arr es := by
  simp [mkRoadmapObj, getProp, List.lookup]

theorem resolveNodes_of_nodes_arr {raw : JSValue} {xs : List JSValue}
    (hx : getProp raw "nodes" = .arr xs) : resolveNodes raw = .ok xs := by
  have hne : raw ≠ .null ∧ raw ≠ .undef := by
    constructor <;> rintro rfl <;> simp [getProp] at hx
  simp [resolveNodes, bind, Except.bind, getPropE_eq _ hne.1 hne.2, hx, pure, Except.pure]

theorem jsOr_absorb (a b : JSValue) : jsOr (jsOr a b) b = jsOr a b := by
  unfold jsOr
  by_cases h : jsTruthy a = true
  · simp [h]
  · simp [h]

theorem mem_zipWith_mkEdge {e : JSValue} :
    ∀ {as bs : List JSValue}, e ∈ List.zipWith mkEdge as bs →
      ∃ a ∈ as, ∃ b ∈ bs, e = mkEdge a b
  | [], _, h => by simp at h
  | _ :: _, [], h => by simp at h
  | a :: as, b :: bs, h => by
    rcases (by simpa using h : e = mkEdge a b ∨ e ∈ List.zipWith mkEdge as bs) with h1 | h1
    · exact ⟨a, by simp, b, by simp, h1⟩
    · obtain ⟨x, hx, y, hy, hxy⟩ := mem_zipWith_mkEdge h1
      exact ⟨x, by simp [hx], y, by simp [hy], hxy⟩

theorem chain_length (ns : List JSValue) :
    (List.zipWith mkEdge ns ns.tail).length = ns.length - 1 := by
  cases ns with
  | nil => simp
  | cons a as => simp [List.length_zipWith]

theorem chain_getD (ns : List JSValue) (i : Nat) (hi : i + 1 < ns.length) :
    (List.zipWith mkEdge ns ns.tail).getD i .undef =
      mkEdge (ns.getD i .undef) (ns.getD (i + 1) .undef) := by
  have hlen : i < (List.zipWith mkEdge ns ns.tail).length := by
    rw [chain_length]; omega
  have h1 : i < ns.length := by omega
  have h2 : i < ns.tail.length := by
    cases ns with
    | nil => simp at hi
    | cons a as => simp at hi ⊢; omega
  rw [List.getD_eq_getElem _ _ hlen, List.getD_eq_getElem _ _ h1,
    List.getD_eq_getElem _ _ hi, List.getElem_zipWith]
  congr 1
  cases ns with
  | nil => simp at hi
  | cons a as => simp

/-- C10: when the parsed object's `nodes` field is an array, `normalizeRoadmap`
uses that array verbatim as the roadmap's nodes: the entries are not reshaped
into the canonical step shape, no `id` or `type` is synthesized for them and
no per-entry fields are defaulted (per-entry canonicalization happens only on
the `steps` path, which is not taken). -/
theorem C10_nodes_verbatim (raw : JSValue) (xs : List JSValue)
    (hx : getProp raw "nodes" = .arr xs) :
    resolveNodes raw = .ok xs ∧
      ∀ r, normalizeRoadmap raw = .ok r → getProp r "nodes" = .arr xs := by
  refine ⟨resolveNodes_of_nodes_arr hx, fun r hr => ?_⟩
  obtain ⟨ns, es, hn, he, rfl⟩ := normalizeRoadmap_ok hr
  have : ns = xs := by
    have h2 := resolveNodes_of_nodes_arr hx
    rw [hn] at h2
    exact (Except.ok.injEq _ _).mp h2
  rw [this, getProp_mkRoadmapObj_nodes]

/-- C10 witness: a concrete non-canonical nodes array (entries lacking `id`,
`type` and every default) passes through `normalizeRoadmap` unchanged. -/
theorem C10_nodes_verbatim_witness :
    getProp (.obj [("nodes", .arr [.str "loose", .obj []])]) "nodes" =
        .arr [.str "loose", .obj []] ∧
      resolveNodes (.obj [("nodes", .arr [.str "loose", .obj []])]) =
        .ok [.str "loose", .obj []] ∧
      ∀ r, normalizeRoadmap (.obj [("nodes", .arr [.str "loose", .obj []])]) = .ok r →
        getProp r "nodes" = .arr [.str "loose", .obj []] := by
  have h := C10_nodes_verbatim (.obj [("nodes", .arr [.str "loose", .obj []])])
    [.str "loose", .obj []] (by decide)
  exact ⟨by decide, h.1, h.2⟩

/-- C8: in every roadmap produced by `normalizeRoadmap`, each edge's `source`
and `target` equal the `id` property of some node of the same roadmap's
`nodes` list (the edges are built only between adjacent existing nodes). -/
theorem C8_edges_reference_nodes (raw r : JSValue) (ns es : List JSValue)
    (h : normalizeRoadmap raw = .ok r) (hn : getProp r "nodes" = .arr ns)
    (he : getProp r "edges" = .arr es) :
    ∀ e ∈ es, (∃ a ∈ ns, getProp e "source" = getProp a "id") ∧
      (∃ b ∈ ns, getProp e "target" = getProp b "id") := by
  obtain ⟨ns0, es0, hn0, he0, rfl⟩ := normalizeRoadmap_ok h
  rw [getProp_mkRoadmapObj_nodes] at hn
  rw [getProp_mkRoadmapObj_edges] at he
  have hns : ns0 = ns := by simpa using hn
  have hes : es0 = es := by simpa using he
  cases hns
  cases hes
  intro e hmem
  rw [buildChain_ok_eq he0] at hmem
  obtain ⟨a, ha, b, hb, rfl⟩ := mem_zipWith_mkEdge hmem
  exact ⟨⟨a, ha, by simp [mkEdge, getProp, List.lookup]⟩,
    ⟨b, List.mem_of_mem_tail hb, by simp [mkEdge, getProp, List.lookup]⟩⟩

/-- C4: for every roadmap produced by `normalizeRoadmap` whose node list has
at least two entries, under supplied edges that are absent, not an array or
empty, the edge list has exactly `n - 1` entries and the entry at index `i`
is the object with `source` equal to `nodes[i].id`, `target` equal to
`nodes[i+1].id` and label `Then`, in order. -/
theorem C4_auto_chain (raw r : JSValue) (ns : List JSValue)
    (h : normalizeRoadmap raw = .ok r) (hn : getProp r "nodes" = .arr ns)
    (hlen : 2 ≤ ns.length)
    (hsup : ∀ es0, getProp raw "edges" = .arr es0 → es0 = []) :
    ∃ es, getProp r "edges" = .arr es ∧ es.length = ns.length - 1 ∧
      ∀ i, i + 1 < ns.length →
        es.getD i .undef = .obj [
          ("source", getProp (ns.getD i .undef) "id"),
          ("target", getProp (ns.getD (i + 1) .undef) "id"),
          ("label", .str "Then")] := by
  obtain ⟨ns0, es0, hn0, he0, rfl⟩ := normalizeRoadmap_ok h
  rw [getProp_mkRoadmapObj_nodes] at hn
  have hns : ns0 = ns := by simpa using hn
  cases hns
  refine ⟨es0, getProp_mkRoadmapObj_edges _ _ _, ?_, ?_⟩
  · rw [buildChain_ok_eq he0, chain_length]
  · intro i hi
    rw [buildChain_ok_eq he0, chain_getD _ _ hi, mkEdge]

/-- C4 witness: instantiation at a concrete two-node roadmap with no
supplied edges. -/
theorem C4_auto_chain_witness :
    ∃ es, getProp (.obj [
        ("title", .str "AI Generated Roadmap"),
        ("description", .str ""),
        ("nodes", .arr [.obj [("id", .str "a")], .obj [("id", .str "b")]]),
        ("edges", .arr [.obj [("source", .str "a"), ("target", .str "b"), ("label", .str "Then")]]),
        ("estimatedTotalDuration", .str ""),
        ("difficulty", .str "beginner"),
        ("category", .str "general")]) "edges" = .arr es ∧
      es.length = [JSValue.obj [("id", .str "a")], JSValue.obj [("id", .str "b")]].length - 1 ∧
      ∀ i, i + 1 < [JSValue.obj [("id", .str "a")], JSValue.obj [("id", .str "b")]].length →
        es.getD i .undef = .obj [
          ("source", getProp ([JSValue.obj [("id", .str "a")],
            JSValue.obj [("id", .str "b")]].getD i .undef) "id"),
          ("target", getProp ([JSValue.obj [("id", .str "a")],
            JSValue.obj [("id", .str "b")]].getD (i + 1) .undef) "id"),
          ("label", .str "Then")] :=
  C4_auto_chain
    (.obj [("nodes", .arr [.obj [("id", .str "a")], .obj [("id", .str "b")]])])
    (.obj [
      ("title", .str "AI Generated Roadmap"),
      ("description", .str ""),
      ("nodes", .arr [.obj [("id", .str "a")], .obj [("id", .str "b")]]),
      ("edges", .arr [.obj [("source", .str "a"), ("target", .str "b"), ("label", .str "Then")]]),
      ("estimatedTotalDuration", .str ""),
      ("difficulty", .str "beginner"),
      ("category", .str "general")])
    [.obj [("id", .str "a")], .obj [("id", .str "b")]]
    (by decide) (by decide) (by decide)
    (fun es0 h => by simp [getProp, List.lookup] at h)

/-- C7: normalizing an already-canonical roadmap is a no-op: every successful
output of `normalizeRoadmap`, viewed again as a parsed object, normalizes to
itself. -/
theorem C7_idempotent (raw r : JSValue) (h : normalizeRoadmap raw = .ok r) :
    normalizeRoadmap r = .ok r := by
  obtain ⟨ns, es, hn, he, rfl⟩ := normalizeRoadmap_ok h
  have hr : resolveNodes (mkRoadmapObj raw ns es) = .ok ns :=
    resolveNodes_of_nodes_arr (getProp_mkRoadmapObj_nodes _ _ _)
  have h2 := normalizeRoadmap_ok_of hr he
  rw [h2]
  congr 1
  simp [mkRoadmapObj, getProp, List.lookup, jsOr_absorb]

/-- C7 witness: instantiation at the empty parsed object. -/
theorem C7_idempotent_witness :
    normalizeRoadmap (.obj [
      ("title", .str "AI Generated Roadmap"),
      ("description", .str ""),
      ("nodes", .arr []),
      ("edges", .arr []),
      ("estimatedTotalDuration", .str ""),
      ("difficulty", .str "beginner"),
      ("category", .str "general")]) = .ok (.obj [
      ("title", .str "AI Generated Roadmap"),
      ("description", .str ""),
      ("nodes", .arr []),
      ("edges", .arr []),
      ("estimatedTotalDuration", .str ""),
      ("difficulty", .str "beginner"),
      ("category", .str "general")]) :=
  C7_idempotent (.obj []) _ (by decide)

/-- C9: `normalizeRoadmap` does not fail on a zero-node result (for an input
whose node list resolves empty it returns a roadmap with an empty `nodes`
array), and it is the `generate-roadmap` handler of `chat.js` that turns a
zero-node normalized result into an error, returning no roadmap. -/
theorem C9_empty_handling :
    (∀ raw, resolveNodes raw = .ok [] →
      ∃ r, normalizeRoadmap raw = .ok r ∧ getProp r "nodes" = .arr []) ∧
    (∀ t parsed r, repairJson t = .ok parsed → normalizeRoadmap parsed = .ok r →
      getProp r "nodes" = .arr [] →
      generateRoadmapCore t = .error .emptyRoadmap) := by
  constructor
  · intro raw hr
    refine ⟨mkRoadmapObj raw [] [], normalizeRoadmap_ok_of hr (by rfl), ?_⟩
    exact getProp_mkRoadmapObj_nodes _ _ _
  · intro t parsed r h1 h2 h3
    simp only [generateRoadmapCore, h1, h2]
    rw [h3]
    simp [getProp]

/-- C9 witness: instantiation at the raw text of an empty JSON object. -/
theorem C9_empty_handling_witness :
    (∃ r, normalizeRoadmap (.obj []) = .ok r ∧ getProp r "nodes" = .arr []) ∧
      generateRoadmapCore "\x7b\x7d" = .error .emptyRoadmap := by
  constructor
  · exact C9_empty_handling.1 (.obj []) (by decide)
  · exact C9_empty_handling.2 "\x7b\x7d" (.obj []) (.obj [
      ("title", .str "AI Generated Roadmap"),
      ("description", .str ""),
      ("nodes", .arr []),
      ("edges", .arr []),
      ("estimatedTotalDuration", .str ""),
      ("difficulty", .str "beginner"),
      ("category", .str "general")]) (by decide) (by decide) (by decide)

/-- C6 counterexample: the scalar defaults are driven by JavaScript
truthiness, not by a string-type test, and `normalizeRoadmap` is not total on
JSON objects.  A truthy non-string `title` (the number `42`) is passed
through, leaving a non-string `title` in the output instead of the documented
default, and an input whose `steps` array contains `null` makes the
normalizer throw a `TypeError`. -/
theorem C6_counterexample :
    normalizeRoadmap (.obj [("title", .num 42)]) = .ok (.obj [
      ("title", .num 42),
      ("description", .str ""),
      ("nodes", .arr []),
      ("edges", .arr []),
      ("estimatedTotalDuration", .str ""),
      ("difficulty", .str "beginner"),
      ("category", .str "general")]) ∧
    isString (getProp (.obj [
      ("title", .num 42),
      ("description", .str ""),
      ("nodes", .arr []),
      ("edges", .arr []),
      ("estimatedTotalDuration", .str ""),
      ("difficulty", .str "beginner"),
      ("category", .str "general")]) "title") = false ∧
    normalizeRoadmap (.obj [("steps", .arr [.null])]) = .error .typeError := by
  decide

/-- C6 amended: on every input on which `normalizeRoadmap` succeeds, each of
the five scalar fields of the output equals the input's field when that field
is truthy and the documented default otherwise (so the output scalar is a
string whenever the input field is falsy, absent, or itself a string, but a
truthy non-string input value is passed through unchanged). -/
theorem C6_scalar_defaults (raw r : JSValue) (h : normalizeRoadmap raw = .ok r) :
    getProp r "title" = jsOr (getProp raw "title") (.str "AI Generated Roadmap") ∧
    getProp r "description" = jsOr (getProp raw "description") (.str "") ∧
    getProp r "estimatedTotalDuration" =
      jsOr (getProp raw "estimatedTotalDuration") (.str "") ∧
    getProp r "difficulty" = jsOr (getProp raw "difficulty") (.str "beginner") ∧
    getProp r "category" = jsOr (getProp raw "category") (.str "general") := by
  obtain ⟨ns, es, hn, he, rfl⟩ := normalizeRoadmap_ok h
  refine ⟨?_, ?_, ?_, ?_, ?_⟩ <;> simp [mkRoadmapObj, getProp, List.lookup]

/-- C6 witness: instantiation at the empty parsed object, where every scalar
receives its documented default. -/
theorem C6_scalar_defaults_witness :
    getProp (.obj [
      ("title", .str "AI Generated Roadmap"),
      ("description", .str ""),
      ("nodes", .arr []),
      ("edges", .arr []),
      ("estimatedTotalDuration", .str ""),
      ("difficulty", .str "beginner"),
      ("category", .str "general")]) "title" =
        jsOr (getProp (.obj ([] : List (String × JSValue))) "title")
          (.str "AI Generated Roadmap") ∧
    getProp (.obj [
      ("title", .str "AI Generated Roadmap"),
      ("description", .str ""),
      ("nodes", .arr []),
      ("edges", .arr []),
      ("estimatedTotalDuration", .str ""),
      ("difficulty", .str "beginner"),
      ("category", .str "general")]) "description" =
        jsOr (getProp (.obj ([] : List (String × JSValue))) "description") (.str "") ∧
    getProp (.obj [
      ("title", .str "AI Generated Roadmap"),
      ("description", .str ""),
      ("nodes", .arr []),
      ("edges", .arr []),
      ("estimatedTotalDuration", .str ""),
      ("difficulty", .str "beginner"),
      ("category", .str "general")]) "estimatedTotalDuration" =
        jsOr (getProp (.obj ([] : List (String × JSValue))) "estimatedTotalDuration")
          (.str "") ∧
    getProp (.obj [
      ("title", .str "AI Generated Roadmap"),
      ("description", .str ""),
      ("nodes", .arr []),
      ("edges", .arr []),
      ("estimatedTotalDuration", .str ""),
      ("difficulty", .str "beginner"),
      ("category", .str "general")]) "difficulty" =
        jsOr (getProp (.obj ([] : List (String × JSValue))) "difficulty")
          (.str "beginner") ∧
    getProp (.obj [
      ("title", .str "AI Generated Roadmap"),
      ("description", .str ""),
      ("nodes", .arr []),
      ("edges", .arr []),
      ("estimatedTotalDuration", .str ""),
      ("difficulty", .str "beginner"),
      ("category", .str "general")]) "category" =
        jsOr (getProp (.obj ([] : List (String × JSValue))) "category")
          (.str "general") :=
  C6_scalar_defaults (.obj []) _ (by decide)

/-- C8 witness: instantiation at a concrete two-node roadmap and its one
synthesized edge. -/
theorem C8_edges_reference_nodes_witness :
    (∃ a ∈ [JSValue.obj [("id", .str "a")], JSValue.obj [("id", .str "b")]],
      getProp (.obj [("source", .str "a"), ("target", .str "b"), ("label", .str "Then")])
        "source" = getProp a "id") ∧
    (∃ b ∈ [JSValue.obj [("id", .str "a")], JSValue.obj [("id", .str "b")]],
      getProp (.obj [("source", .str "a"), ("target", .str "b"), ("label", .str "Then")])
        "target" = getProp b "id") :=
  C8_edges_reference_nodes
    (.obj [("nodes", .arr [.obj [("id", .str "a")], .obj [("id", .str "b")]])])
    (.obj [
      ("title", .str "AI Generated Roadmap"),
      ("description", .str ""),
      ("nodes", .arr [.obj [("id", .str "a")], .obj [("id", .str "b")]]),
      ("edges", .arr [.obj [("source", .str "a"), ("target", .str "b"), ("label", .str "Then")]]),
      ("estimatedTotalDuration", .str ""),
      ("difficulty", .str "beginner"),
      ("category", .str "general")])
    [.obj [("id", .str "a")], .obj [("id", .str "b")]]
    [.obj [("source", .str "a"), ("target", .str "b"), ("label", .str "Then")]]
    (by decide) (by decide) (by decide)
    (.obj [("source", .str "a"), ("target", .str "b"), ("label", .str "Then")])
    (by simp)

/-!
## Claims about node identifiers and edge pass-through
-/

theorem stepFromEntry_id {s : JSValue} {i : Nat} {n : JSValue}
    (h : stepFromEntry s i = .ok n) :
    getProp n "id" = .str ("step_" ++ toString (i + 1)) := by
  cases s <;> revert h <;>
    simp [stepFromEntry, bind, Except.bind, pure, Except.pure, getPropE] <;>
    rintro rfl <;> simp [getProp, List.lookup]

theorem lookup_upsertField_self (base : List (String × JSValue)) (k : String) (v : JSValue) :
    (upsertField base k v).lookup k = some v := by
  induction base with
  | nil => simp [upsertField, List.lookup]
  | cons kv rest ih =>
    obtain ⟨k0, v0⟩ := kv
    by_cases h : k0 = k
    · subst h; simp [upsertField, List.lookup]
    · have hbeq : (k == k0) = false := beq_eq_false_iff_ne.mpr (Ne.symm h)
      simp [upsertField, h, List.lookup, hbeq, ih]

theorem lookup_upsertField_ne (base : List (String × JSValue)) (k : String) (v : JSValue)
    (k2 : String) (h : k2 ≠ k) :
    (upsertField base k v).lookup k2 = base.lookup k2 := by
  have hbeq : (k2 == k) = false := beq_eq_false_iff_ne.mpr h
  induction base with
  | nil => simp [upsertField, List.lookup, hbeq]
  | cons kv rest ih =>
    obtain ⟨k0, v0⟩ := kv
    by_cases h0 : k0 = k
    · subst h0
      simp [upsertField, List.lookup, hbeq]
    · simp [upsertField, h0, List.lookup, ih]

theorem lookup_none_of_not_contains (fs : List (String × JSValue)) (k : String)
    (h : (fs.map Prod.fst).contains k = false) : fs.lookup k = none := by
  induction fs with
  | nil => simp
  | cons kv rest ih =>
    obtain ⟨k0, v0⟩ := kv
    simp only [List.map_cons, List.contains_cons, Bool.or_eq_false_iff] at h
    have hne : k ≠ k0 := by
      intro heq
      subst heq
      simp at h
    have hbeq : (k == k0) = false := beq_eq_false_iff_ne.mpr hne
    simp [List.lookup, hbeq, ih h.2]

theorem lookup_upsertAll_of_none (fs : List (String × JSValue)) (k : String)
    (h : fs.lookup k = none) :
    ∀ base, (upsertAll base fs).lookup k = base.lookup k := by
  induction fs with
  | nil => intro base; simp [upsertAll]
  | cons kv rest ih =>
    obtain ⟨k0, v0⟩ := kv
    intro base
    have hne : k ≠ k0 := by
      intro heq
      subst heq
      simp [List.lookup] at h
    have hbeq : (k == k0) = false := beq_eq_false_iff_ne.mpr hne
    have h2 : rest.lookup k = none := by
      simpa [List.lookup, hbeq] using h
    rw [upsertAll, ih h2, lookup_upsertField_ne _ _ _ _ hne]

theorem lookup_upsertAll_of_some (fs : List (String × JSValue)) (k : String) (v : JSValue)
    (hd : keysDistinct (fs.map Prod.fst) = true) (h : fs.lookup k = some v) :
    ∀ base, (upsertAll base fs).lookup k = some v := by
  induction fs with
  | nil => simp at h
  | cons kv rest ih =>
    obtain ⟨k0, v0⟩ := kv
    intro base
    simp only [List.map_cons, keysDistinct, Bool.and_eq_true, Bool.not_eq_true] at hd
    by_cases hk : k = k0
    · subst hk
      have hv : v0 = v := by simpa [List.lookup] using h
      subst hv
      have hnone : rest.lookup k = none :=
        lookup_none_of_not_contains _ _ (by simpa using hd.1)
      rw [upsertAll, lookup_upsertAll_of_none _ _ hnone, lookup_upsertField_self]
    · have hbeq : (k == k0) = false := beq_eq_false_iff_ne.mpr hk
      have h2 : rest.lookup k = some v := by simpa [List.lookup, hbeq] using h
      rw [upsertAll]
      exact ih hd.2 h2 _

theorem patchNormalizeNode_obj_ok (fs : List (String × JSValue)) (idx : Nat) :
    patchNormalizeNode (.obj fs) idx = .ok (.obj (upsertAll [
      ("id", jsOr ((fs.lookup "id").getD .undef) (.str ("step_" ++ toString (idx + 1)))),
      ("title", jsOr ((fs.lookup "title").getD .undef) (.str ("Step " ++ toString (idx + 1)))),
      ("description", jsOr ((fs.lookup "description").getD .undef) (.str "")),
      ("duration", jsOr ((fs.lookup "duration").getD .undef) (.str "")),
      ("type", jsOr ((fs.lookup "type").getD .undef) (.str "task")),
      ("resources", jsOr ((fs.lookup "resources").getD .undef) (.arr []))] fs)) := by
  simp [patchNormalizeNode, bind, Except.bind, pure, Except.pure, getPropE, getProp,
    spreadFields]

/-- C2 counterexample: on the `steps` path of `normalizeRoadmap`, an entry
that supplies its own `id` does not keep it: the resulting step id is always
the synthesized `step_1`, not the supplied `custom`. -/
theorem C2_counterexample :
    normalizeRoadmap (.obj [("steps",
        .arr [.obj [("id", .str "custom"), ("title", .str "T")]])]) = .ok (.obj [
      ("title", .str "AI Generated Roadmap"),
      ("description", .str ""),
      ("nodes", .arr [.obj [
        ("id", .str "step_1"),
        ("title", .str "T"),
        ("description", .str ""),
        ("duration", .str ""),
        ("type", .str "task"),
        ("resources", .arr [])]]),
      ("edges", .arr []),
      ("estimatedTotalDuration", .str ""),
      ("difficulty", .str "beginner"),
      ("category", .str "general")]) ∧
    (JSValue.str "step_1" ≠ .str "custom") := by decide

/-- C2 amended: on the `steps` path of `normalizeRoadmap` every resulting
step id is the synthesized `step_<n>` (`n` the one-based position),
regardless of any id the entry supplies; the claimed rule — keep the entry's
own id when present, synthesize `step_<n>` otherwise — holds of the node map
of the `server-patch.js` handler, where the trailing spread reinstates the
node's own `id`. -/
theorem C2_step_ids :
    (∀ s i n, stepFromEntry s i = .ok n →
      getProp n "id" = .str ("step_" ++ toString (i + 1))) ∧
    (∀ fs idx r, keysDistinct (fs.map Prod.fst) = true →
      patchNormalizeNode (.obj fs) idx = .ok r →
      getProp r "id" = (fs.lookup "id").getD (.str ("step_" ++ toString (idx + 1)))) := by
  constructor
  · intro s i n h
    exact stepFromEntry_id h
  · intro fs idx r hd h
    rw [patchNormalizeNode_obj_ok] at h
    have hr := (Except.ok.injEq _ _).mp h
    subst hr
    cases hlk : fs.lookup "id" with
    | some v =>
      simp only [getProp, List.getD]
      rw [lookup_upsertAll_of_some fs "id" v hd hlk]
      simp
    | none =>
      simp only [getProp, List.getD]
      rw [lookup_upsertAll_of_none fs "id" hlk]
      simp [List.lookup, hlk, jsOr, jsTruthy]

/-- C2 witness: instantiation of both parts: a steps entry with no id gets
`step_1`; a patch node that supplies `id` keeps it, and one that omits `id`
receives `step_2`. -/
theorem C2_step_ids_witness :
    getProp (.obj [
      ("id", .str "step_1"),
      ("title", .str "T"),
      ("description", .str ""),
      ("duration", .str ""),
      ("type", .str "task"),
      ("resources", .arr [])]) "id" = .str ("step_" ++ toString (0 + 1)) ∧
    getProp (.obj [
      ("id", .str "mine"),
      ("title", .str "Step 1"),
      ("description", .str ""),
      ("duration", .str ""),
      ("type", .str "task"),
      ("resources", .arr [])]) "id" =
        ([(("id" : String), JSValue.str "mine")].lookup "id").getD
          (.str ("step_" ++ toString (0 + 1))) ∧
    getProp (.obj [
      ("id", .str "step_2"),
      ("title", .str "Step 2"),
      ("description", .str ""),
      ("duration", .str ""),
      ("type", .str "task"),
      ("resources", .arr [])]) "id" =
        (([] : List (String × JSValue)).lookup "id").getD
          (.str ("step_" ++ toString (1 + 1))) := by
  refine ⟨?_, ?_, ?_⟩
  · exact C2_step_ids.1 (.obj [("id", .str "nope"), ("title", .str "T")]) 0 _ (by decide)
  · exact C2_step_ids.2 [("id", .str "mine")] 0 _ (by decide) (by decide)
  · exact C2_step_ids.2 [] 1 _ (by decide) (by decide)

/-- C1 counterexample: `normalizeRoadmap` ignores a supplied non-empty
`edges` array entirely — with two nodes and a supplied reverse edge labelled
`Back`, the output carries the synthesized forward chain, not the supplied
array. -/
theorem C1_counterexample :
    normalizeRoadmap (.obj [
      ("nodes", .arr [.obj [("id", .str "a")], .obj [("id", .str "b")]]),
      ("edges", .arr [.obj [("source", .str "b"), ("target", .str "a"),
        ("label", .str "Back")]])]) = .ok (.obj [
      ("title", .str "AI Generated Roadmap"),
      ("description", .str ""),
      ("nodes", .arr [.obj [("id", .str "a")], .obj [("id", .str "b")]]),
      ("edges", .arr [.obj [("source", .str "a"), ("target", .str "b"),
        ("label", .str "Then")]]),
      ("estimatedTotalDuration", .str ""),
      ("difficulty", .str "beginner"),
      ("category", .str "general")]) ∧
    (JSValue.arr [.obj [("source", .str "a"), ("target", .str "b"), ("label", .str "Then")]] ≠
      .arr [.obj [("source", .str "b"), ("target", .str "a"), ("label", .str "Back")]]) := by
  decide

/-- C1 amended: `normalizeRoadmap` of `chat.js` never passes supplied edges
through — its output edge list is always the synthesized linear chain over
the resolved nodes, whatever the input's `edges` field holds; the claimed
pass-through behavior belongs to the `server-patch.js` handler, whose edge
block keeps a supplied non-empty `edges` array unchanged and synthesizes the
chain when the edges value is absent (`undefined`) or an empty array. -/
theorem C1_edges_resolution :
    (∀ raw r ns es, normalizeRoadmap raw = .ok r → getProp r "nodes" = .arr ns →
      getProp r "edges" = .arr es → es = List.zipWith mkEdge ns ns.tail) ∧
    (∀ nodes es, es ≠ [] → patchResolveEdges nodes (.arr es) = .ok (.arr es)) ∧
    (∀ nodes, patchResolveEdges nodes .undef = (buildChain nodes).map .arr ∧
      patchResolveEdges nodes (.arr []) = (buildChain nodes).map .arr) := by
  refine ⟨?_, ?_, ?_⟩
  · intro raw r ns es h hn he
    obtain ⟨ns0, es0, hn0, he0, rfl⟩ := normalizeRoadmap_ok h
    rw [getProp_mkRoadmapObj_nodes] at hn
    rw [getProp_mkRoadmapObj_edges] at he
    have hns : ns0 = ns := by simpa using hn
    have hes : es0 = es := by simpa using he
    cases hns
    cases hes
    exact buildChain_ok_eq he0
  · intro nodes es h
    have hlen : ((es.length : Int) = 0) = False := by
      simp [List.length_eq_zero, h]
    simp [patchResolveEdges, jsTruthy, getProp, hlen]
  · intro nodes
    constructor
    · simp [patchResolveEdges, jsTruthy]
    · simp [patchResolveEdges, jsTruthy, getProp]

/-- C1 witness: instantiation of all three parts at concrete inputs: a
roadmap with a supplied (ignored) edge whose output is the chain, the patch
block keeping a one-edge array, and the patch block synthesizing for
`undefined` and `[]`. -/
theorem C1_edges_resolution_witness :
    ([JSValue.obj [("source", .str "a"), ("target", .str "b"), ("label", .str "Then")]] =
      List.zipWith mkEdge
        [JSValue.obj [("id", .str "a")], JSValue.obj [("id", .str "b")]]
        [JSValue.obj [("id", .str "a")], JSValue.obj [("id", .str "b")]].tail) ∧
    patchResolveEdges [] (.arr [.obj [("source", .str "x"), ("target", .str "y")]]) =
      .ok (.arr [.obj [("source", .str "x"), ("target", .str "y")]]) ∧
    (patchResolveEdges [] .undef = (buildChain []).map .arr ∧
      patchResolveEdges [] (.arr []) = (buildChain []).map .arr) := by
  refine ⟨?_, ?_, ?_⟩
  · exact C1_edges_resolution.1
      (.obj [
        ("nodes", .arr [.obj [("id", .str "a")], .obj [("id", .str "b")]]),
        ("edges", .arr [.obj [("source", .str "b"), ("target", .str "a"),
          ("label", .str "Back")]])])
      (.obj [
        ("title", .str "AI Generated Roadmap"),
        ("description", .str ""),
        ("nodes", .arr [.obj [("id", .str "a")], .obj [("id", .str "b")]]),
        ("edges", .arr [.obj [("source", .str "a"), ("target", .str "b"),
          ("label", .str "Then")]]),
        ("estimatedTotalDuration", .str ""),
        ("difficulty", .str "beginner"),
        ("category", .str "general")])
      [.obj [("id", .str "a")], .obj [("id", .str "b")]]
      [.obj [("source", .str "a"), ("target", .str "b"), ("label", .str "Then")]]
      (by decide) (by decide) (by decide)
  · exact C1_edges_resolution.2.1 []
      [.obj [("source", .str "x"), ("target", .str "y")]] (by decide)
  · exact C1_edges_resolution.2.2 []

/-- C3 counterexample: the error raised by `repairJson` does not carry the
original raw text (truncated or otherwise) as context — two different
unrepairable texts produce the identical fixed error value, the modelled
`Error('No JSON found')`. -/
theorem C3_counterexample :
    repairJson "Sorry, I can\x27t help with that." = .error .noJsonFound ∧
    repairJson "Request denied." = .error .noJsonFound := by decide

/-- C3 amended: `repairJson` fails exactly when no JSON object can be located
(the whole text does not parse, and either no brace span is found or the
extracted span does not parse); the raised error is the constant
`No JSON found` error or the propagated parse error and carries no raw-text
context; in particular the text `Sorry, I can't help with that.` fails with
the `No JSON found` error. -/
theorem C3_repair_failure :
    (∀ t, (∃ e, repairJson t = .error e) ↔
      (jsonParse t = none ∧ ∀ s, braceSpan t = some s → jsonParse s = none)) ∧
    repairJson "Sorry, I can\x27t help with that." = .error .noJsonFound := by
  constructor
  · intro t
    unfold repairJson
    cases h1 : jsonParse t with
    | some v => simp [h1]
    | none =>
      cases h2 : braceSpan t with
      | none => simp [h2]
      | some sub =>
        cases h3 : jsonParse sub with
        | some v =>
          simp only [h3]
          constructor
          · rintro ⟨e, he⟩
            cases he
          · rintro ⟨-, hall⟩
            rw [hall sub rfl] at h3
            cases h3
        | none => simp [h3]
  · decide

/-!
## Round trip of the JSON model: printing then parsing
-/

theorem isDigit_digitChar (d : Nat) : isDigit (digitChar d) = true := by
  rcases d with _|_|_|_|_|_|_|_|_|d <;> rfl

theorem digitVal_digitChar {d : Nat} (h : d < 10) : digitVal (digitChar d) = d := by
  interval_cases d <;> decide

theorem natCharsAux_digits : ∀ f n, n < f → ∀ c ∈ natCharsAux f n, isDigit c = true := by
  intro f
  induction f with
  | zero => omega
  | succ f ih =>
    intro n h c hc
    rw [natCharsAux] at hc
    by_cases h10 : n < 10
    · simp [h10] at hc
      subst hc
      exact isDigit_digitChar n
    · simp only [h10, if_false, List.mem_append, List.mem_singleton] at hc
      rcases hc with hc | hc
      · have hdiv : n / 10 < f := by
          have h1 : n / 10 < n := Nat.div_lt_self (by omega) (by omega)
          omega
        exact ih (n / 10) hdiv c hc
      · subst hc
        exact isDigit_digitChar (n % 10)

theorem natCharsAux_ne_nil : ∀ f n, n < f → natCharsAux f n ≠ [] := by
  intro f
  induction f with
  | zero => omega
  | succ f ih =>
    intro n h
    rw [natCharsAux]
    by_cases h10 : n < 10 <;> simp [h10]

theorem foldl_natCharsAux : ∀ f n acc, n < f →
    List.foldl (fun a c => a * 10 + digitVal c) acc (natCharsAux f n) =
      acc * 10 ^ (natCharsAux f n).length + n := by
  intro f
  induction f with
  | zero => omega
  | succ f ih =>
    intro n acc h
    rw [natCharsAux]
    by_cases h10 : n < 10
    · simp [h10, digitVal_digitChar h10]
    · have hdiv : n / 10 < f := by
        have h1 : n / 10 < n := Nat.div_lt_self (by omega) (by omega)
        omega
      simp only [h10, if_false]
      rw [List.foldl_append, ih _ _ hdiv]
      have hmod : n % 10 < 10 := Nat.mod_lt _ (by omega)
      simp only [List.foldl_cons, List.foldl_nil, digitVal_digitChar hmod,
        List.length_append, List.length_singleton]
      rw [pow_succ, ← mul_assoc]
      have hdm := Nat.div_add_mod n 10
      generalize acc * 10 ^ (natCharsAux f (n / 10)).length = q
      omega

theorem parseDigits_of_digits : ∀ ds : List Char, ∀ rest acc,
    (∀ c ∈ ds, isDigit c = true) → startsDigit rest = false →
    parseDigits (ds ++ rest) acc =
      (List.foldl (fun a c => a * 10 + digitVal c) acc ds, rest) := by
  intro ds
  induction ds with
  | nil =>
    intro rest acc _ hrest
    cases rest with
    | nil => rfl
    | cons c cs =>
      simp only [startsDigit] at hrest
      simp [parseDigits, hrest]
  | cons d ds ih =>
    intro rest acc hds hrest
    simp only [List.cons_append, parseDigits, hds d (by simp), if_true, List.foldl_cons]
    exact ih rest _ (fun c hc => hds c (by simp [hc])) hrest

theorem parseDigits_natChars (m : Nat) (rest : List Char) (h : startsDigit rest = false) :
    parseDigits (natChars m ++ rest) 0 = (m, rest) := by
  have hall : ∀ c ∈ natChars m, isDigit c = true := fun c hc =>
    natCharsAux_digits (m + 1) m (by omega) c hc
  rw [parseDigits_of_digits _ _ _ hall h]
  have h2 := foldl_natCharsAux (m + 1) m 0 (by omega)
  simp only [Nat.zero_mul, Nat.zero_add] at h2
  show (List.foldl (fun a c => a * 10 + digitVal c) 0 (natCharsAux (m + 1) m), rest) =
    (m, rest)
  rw [h2]

theorem natChars_head : ∀ m, ∃ c cs, natChars m = c :: cs ∧ isDigit c = true := by
  intro m
  cases hc : natChars m with
  | nil => exact absurd hc (natCharsAux_ne_nil (m + 1) m (by omega))
  | cons c cs =>
    refine ⟨c, cs, rfl, ?_⟩
    have hmem : c ∈ natChars m := by rw [hc]; simp
    exact natCharsAux_digits (m + 1) m (by omega) c hmem

theorem isDigit_ne {c : Char} (h : isDigit c = true) :
    isWs c = false ∧ c ≠ '-' ∧ c ≠ '{' ∧ c ≠ '[' ∧ c ≠ '"' ∧ c ≠ 't' ∧ c ≠ 'f' ∧
      c ≠ 'n' ∧ c ≠ ']' ∧ c ≠ '}' ∧ c ≠ ',' := by
  have hws : isWs c = false := by
    by_contra hw
    rw [Bool.not_eq_false] at hw
    simp only [isWs, Bool.or_eq_true, decide_eq_true_eq] at hw
    rcases hw with ((rfl | rfl) | rfl) | rfl <;> exact absurd h (by decide)
  refine ⟨hws, ?_, ?_, ?_, ?_, ?_, ?_, ?_, ?_, ?_, ?_⟩ <;> rintro rfl <;>
    exact absurd h (by decide)

theorem skipWs_cons {c : Char} (l : List Char) (h : isWs c = false) :
    skipWs (c :: l) = c :: l := by
  simp [skipWs, List.dropWhile_cons, h]

theorem parseNum_print (n : Int) (rest : List Char) (h : startsDigit rest = false) :
    parseNum (intChars n ++ rest) = some (.num n, rest) := by
  unfold intChars
  by_cases hneg : n < 0
  · obtain ⟨c, cs, hc, hd⟩ := natChars_head n.natAbs
    simp only [hneg, if_true, List.cons_append, parseNum, if_pos rfl]
    have hstart : startsDigit (natChars n.natAbs ++ rest) = true := by
      rw [hc]
      simpa [startsDigit] using hd
    rw [if_pos hstart, parseDigits_natChars _ _ h]
    have : (n.natAbs : Int) = -n := by omega
    simp [this]
  · obtain ⟨c, cs, hc, hd⟩ := natChars_head n.natAbs
    obtain ⟨-, hdash, -⟩ := isDigit_ne hd
    simp only [hneg, if_false]
    rw [hc, List.cons_append, parseNum, if_neg hdash, if_pos hd, ← List.cons_append, ← hc,
      parseDigits_natChars _ _ h]
    have : (n.natAbs : Int) = n := by omega
    simp [this]

theorem parseStringBody_escList : ∀ cs rest : List Char,
    parseStringBody (escList cs ++ '"' :: rest) = some (cs, rest) := by
  intro cs
  induction cs with
  | nil =>
    intro rest
    rw [escList, List.nil_append, parseStringBody.eq_def]
    simp
  | cons c cs ih =>
    intro rest
    rw [escList, List.append_assoc]
    unfold escChar
    by_cases h1 : c = '"'
    · subst h1
      rw [if_pos rfl, List.cons_append, List.cons_append, parseStringBody.eq_def]
      simp [unescape, ih, bind, Option.bind]
    · rw [if_neg h1]
      by_cases h2 : c = '\\'
      · subst h2
        rw [if_pos rfl, List.cons_append, List.cons_append, parseStringBody.eq_def]
        simp [unescape, ih, bind, Option.bind]
      · rw [if_neg h2]
        by_cases h3 : c = '\n'
        · subst h3
          rw [if_pos rfl, List.cons_append, List.cons_append, parseStringBody.eq_def]
          simp [unescape, ih, bind, Option.bind]
        · rw [if_neg h3]
          by_cases h4 : c = '\t'
          · subst h4
            rw [if_pos rfl, List.cons_append, List.cons_append, parseStringBody.eq_def]
            simp [unescape, ih, bind, Option.bind]
          · rw [if_neg h4]
            by_cases h5 : c = '\r'
            · subst h5
              rw [if_pos rfl, List.cons_append, List.cons_append, parseStringBody.eq_def]
              simp [unescape, ih, bind, Option.bind]
            · rw [if_neg h5, List.singleton_append, parseStringBody.eq_def]
              simp [h1, h2, ih, bind, Option.bind]

theorem printChars_head (v : JSValue) : ∃ c cs, printChars v = c :: cs ∧ isWs c = false ∧
    c ≠ ']' ∧ c ≠ '}' ∧ c ≠ ',' := by
  cases v with
  | undef => exact ⟨'n', ['u', 'l', 'l'], rfl, by decide, by decide, by decide, by decide⟩
  | null => exact ⟨'n', ['u', 'l', 'l'], rfl, by decide, by decide, by decide, by decide⟩
  | bool b =>
    cases b with
    | false =>
      exact ⟨'f', ['a', 'l', 's', 'e'], rfl, by decide, by decide, by decide, by decide⟩
    | true => exact ⟨'t', ['r', 'u', 'e'], rfl, by decide, by decide, by decide, by decide⟩
  | num n =>
    show ∃ c cs, intChars n = c :: cs ∧ _
    unfold intChars
    by_cases hneg : n < 0
    · exact ⟨'-', natChars n.natAbs, by simp [hneg], by decide, by decide, by decide,
        by decide⟩
    · obtain ⟨c, cs, hc, hd⟩ := natChars_head n.natAbs
      obtain ⟨hws, -, -, -, -, -, -, -, hne1, hne2, hne3⟩ := isDigit_ne hd
      exact ⟨c, cs, by simp [hneg, hc], hws, hne1, hne2, hne3⟩
  | str s =>
    exact ⟨'"', escList s.data ++ ['"'], rfl, by decide, by decide, by decide, by decide⟩
  | arr xs =>
    exact ⟨'[', printElems xs ++ [']'], rfl, by decide, by decide, by decide, by decide⟩
  | obj fs =>
    exact ⟨'{', printMembers fs ++ ['}'], rfl, by decide, by decide, by decide, by decide⟩

theorem jsListAll_mem : ∀ {xs : List JSValue}, jsListAll xs = true →
    ∀ x ∈ xs, noUndef x = true := by
  intro xs h
  induction xs with
  | nil => simp
  | cons a l ih =>
    rw [jsListAll, Bool.and_eq_true] at h
    intro x hx
    rcases List.mem_cons.mp hx with rfl | hx
    · exact h.1
    · exact ih h.2 x hx

theorem jsFieldsAll_mem : ∀ {fs : List (String × JSValue)}, jsFieldsAll fs = true →
    ∀ kv ∈ fs, noUndef kv.2 = true := by
  intro fs h
  induction fs with
  | nil => simp
  | cons a l ih =>
    obtain ⟨k, v⟩ := a
    rw [jsFieldsAll, Bool.and_eq_true] at h
    intro kv hkv
    rcases List.mem_cons.mp hkv with rfl | hkv
    · exact h.1
    · exact ih h.2 kv hkv

theorem keysOkList_mem : ∀ {xs : List JSValue}, keysOkList xs = true →
    ∀ x ∈ xs, keysOk x = true := by
  intro xs h
  induction xs with
  | nil => simp
  | cons a l ih =>
    rw [keysOkList, Bool.and_eq_true] at h
    intro x hx
    rcases List.mem_cons.mp hx with rfl | hx
    · exact h.1
    · exact ih h.2 x hx

theorem keysOkFields_mem : ∀ {fs : List (String × JSValue)}, keysOkFields fs = true →
    ∀ kv ∈ fs, keysOk kv.2 = true := by
  intro fs h
  induction fs with
  | nil => simp
  | cons a l ih =>
    obtain ⟨k, v⟩ := a
    rw [keysOkFields, Bool.and_eq_true] at h
    intro kv hkv
    rcases List.mem_cons.mp hkv with rfl | hkv
    · exact h.1
    · exact ih h.2 kv hkv

/-- The statement of print-then-parse adequacy for one value. -/
def ParsePrintOk (v : JSValue) : Prop :=
  ∀ f rest, fuelV v ≤ f → startsDigit rest = false →
    parseValue f (printChars v ++ rest) = some (v, rest)

theorem startsDigit_cons (c : Char) (l : List Char) : startsDigit (c :: l) = isDigit c := rfl

theorem parseElems_print : ∀ xs : List JSValue, (∀ x ∈ xs, ParsePrintOk x) → xs ≠ [] →
    ∀ f rest, fuelE xs ≤ f → startsDigit rest = false →
    parseElems f (printElems xs ++ ']' :: rest) = some (xs, rest) := by
  intro xs
  induction xs with
  | nil => intro _ h; exact absurd rfl h
  | cons x xs ih =>
    intro hall _ f rest hf hrest
    cases xs with
    | nil =>
      cases f with
      | zero => rw [fuelE] at hf; omega
      | succ f2 =>
        have hfx : fuelV x ≤ f2 := by
          rw [fuelE] at hf
          have := le_max_left (fuelV x) (fuelE ([] : List JSValue))
          omega
        have hx := hall x (by simp) f2 (']' :: rest) hfx
          (by rw [startsDigit_cons]; decide)
        simp only [printElems]
        rw [parseElems]
        simp [hx, bind, Option.bind, skipWs_cons _ (by decide : isWs ']' = false)]
    | cons y ys =>
      cases f with
      | zero => rw [fuelE] at hf; omega
      | succ f2 =>
        have hfx : fuelV x ≤ f2 := by
          rw [fuelE] at hf
          have := le_max_left (fuelV x) (fuelE (y :: ys))
          omega
        have hfe : fuelE (y :: ys) ≤ f2 := by
          rw [fuelE] at hf
          have := le_max_right (fuelV x) (fuelE (y :: ys))
          omega
        have hx := hall x (by simp) f2 (',' :: (printElems (y :: ys) ++ ']' :: rest))
          hfx (by rw [startsDigit_cons]; decide)
        have hrec := ih (fun z hz => hall z (by simp [hz])) (by simp) f2 rest hfe hrest
        simp only [printElems]
        rw [parseElems, List.append_assoc, List.cons_append]
        simp [hx, hrec, bind, Option.bind, skipWs_cons _ (by decide : isWs ',' = false)]

theorem stringMk_data (s : String) : String.mk s.data = s := rfl

theorem parseMembers_print : ∀ fs : List (String × JSValue),
    (∀ kv ∈ fs, ParsePrintOk kv.2) → fs ≠ [] →
    keysDistinct (fs.map Prod.fst) = true →
    ∀ f rest, fuelM fs ≤ f → startsDigit rest = false →
    parseMembers f (printMembers fs ++ '}' :: rest) = some (fs, rest) := by
  intro fs
  induction fs with
  | nil => intro _ h; exact absurd rfl h
  | cons kv fs ih =>
    obtain ⟨k, v⟩ := kv
    intro hall _ hdk f rest hf hrest
    cases fs with
    | nil =>
      cases f with
      | zero => rw [fuelM] at hf; omega
      | succ f2 =>
        have hfv : fuelV v ≤ f2 := by
          rw [fuelM] at hf
          have := le_max_left (fuelV v) (fuelM ([] : List (String × JSValue)))
          omega
        have hv := hall (k, v) (by simp) f2 ('}' :: rest) hfv
          (by rw [startsDigit_cons]; decide)
        simp only [printMembers]
        rw [parseMembers, List.cons_append, List.append_assoc, List.cons_append,
          List.cons_append]
        rw [skipWs_cons _ (by decide : isWs '"' = false)]
        simp only [if_pos rfl, parseStringBody_escList, bind, Option.bind]
        rw [skipWs_cons _ (by decide : isWs ':' = false)]
        simp [hv, bind, Option.bind, skipWs_cons _ (by decide : isWs '}' = false),
          stringMk_data]
    | cons kv2 gs =>
      cases f with
      | zero => rw [fuelM] at hf; omega
      | succ f2 =>
        have hfv : fuelV v ≤ f2 := by
          rw [fuelM] at hf
          have := le_max_left (fuelV v) (fuelM (kv2 :: gs))
          omega
        have hfm : fuelM (kv2 :: gs) ≤ f2 := by
          rw [fuelM] at hf
          have := le_max_right (fuelV v) (fuelM (kv2 :: gs))
          omega
        have hv := hall (k, v) (by simp) f2
          (',' :: (printMembers (kv2 :: gs) ++ '}' :: rest)) hfv
          (by rw [startsDigit_cons]; decide)
        have hdk2 : keysDistinct ((kv2 :: gs).map Prod.fst) = true := by
          simp only [List.map_cons, keysDistinct, Bool.and_eq_true] at hdk ⊢
          exact hdk.2
        have hnc : ((kv2 :: gs).map Prod.fst).contains k = false := by
          simp only [List.map_cons, keysDistinct, Bool.and_eq_true,
            Bool.not_eq_true] at hdk
          simpa using hdk.1
        have hrec := ih (fun z hz => hall z (by simp [hz])) (by simp) hdk2 f2 rest
          hfm hrest
        simp only [printMembers]
        rw [parseMembers, List.cons_append, List.append_assoc, List.cons_append,
          List.cons_append]
        rw [skipWs_cons _ (by decide : isWs '"' = false)]
        simp only [if_pos rfl, List.append_assoc, List.cons_append,
          parseStringBody_escList, bind, Option.bind]
        rw [skipWs_cons _ (by decide : isWs ':' = false)]
        simp only [if_pos rfl, hv, bind, Option.bind]
        rw [skipWs_cons _ (by decide : isWs ',' = false)]
        simp only [hrec, bind, Option.bind]
        have hcm : consMember (String.mk k.data) v (kv2 :: gs) = (k, v) :: kv2 :: gs := by
          rw [stringMk_data, consMember, lookup_none_of_not_contains _ _ hnc]
        simp [hcm]

theorem printElems_head (x : JSValue) (xs : List JSValue) :
    ∃ c cs, printElems (x :: xs) = c :: cs ∧ isWs c = false ∧ c ≠ ']' ∧ c ≠ '}' ∧
      c ≠ ',' := by
  obtain ⟨c, cs, hc, hws, h1, h2, h3⟩ := printChars_head x
  cases xs with
  | nil => exact ⟨c, cs, by rw [printElems, hc], hws, h1, h2, h3⟩
  | cons y ys =>
    refine ⟨c, cs ++ ',' :: printElems (y :: ys), ?_, hws, h1, h2, h3⟩
    simp only [printElems]
    rw [hc, List.cons_append]

theorem printMembers_head (kv : String × JSValue) (fs : List (String × JSValue)) :
    ∃ cs, printMembers (kv :: fs) = '"' :: cs := by
  obtain ⟨k, v⟩ := kv
  cases fs with
  | nil => exact ⟨escList k.data ++ '"' :: ':' :: printChars v, by rw [printMembers]⟩
  | cons kv2 gs =>
    refine ⟨(escList k.data ++ '"' :: ':' :: printChars v) ++
      ',' :: printMembers (kv2 :: gs), ?_⟩
    simp only [printMembers]
    rw [List.cons_append]

theorem parse_print : ∀ v : JSValue, noUndef v = true → keysOk v = true → ParsePrintOk v := by
  intro v
  induction v using JSValue.indOn with
  | hu => intro h; exact absurd h (by decide)
  | hn =>
    intro _ _ f rest hf hrest
    cases f with
    | zero => exact absurd hf (by decide)
    | succ f2 =>
      show parseValue (f2 + 1) ('n' :: 'u' :: 'l' :: 'l' :: rest) = some (.null, rest)
      rw [parseValue, skipWs_cons _ (by decide)]
      simp [dropLit]
  | hb b =>
    intro _ _ f rest hf hrest
    cases f with
    | zero => exact absurd hf (by cases b <;> decide)
    | succ f2 =>
      cases b with
      | false =>
        show parseValue (f2 + 1) ('f' :: 'a' :: 'l' :: 's' :: 'e' :: rest) =
          some (.bool false, rest)
        rw [parseValue, skipWs_cons _ (by decide)]
        simp [dropLit]
      | true =>
        show parseValue (f2 + 1) ('t' :: 'r' :: 'u' :: 'e' :: rest) =
          some (.bool true, rest)
        rw [parseValue, skipWs_cons _ (by decide)]
        simp [dropLit]
  | hm n =>
    intro _ _ f rest hf hrest
    cases f with
    | zero =>
      have h1 : fuelV (.num n) = 1 := rfl
      omega
    | succ f2 =>
      by_cases hneg : n < 0
      · have hshape : printChars (.num n) ++ rest = '-' :: (natChars n.natAbs ++ rest) := by
          show intChars n ++ rest = _
          rw [intChars, if_pos hneg, List.cons_append]
        rw [hshape, parseValue, skipWs_cons _ (by decide)]
        have hp := parseNum_print n rest hrest
        rw [intChars, if_pos hneg, List.cons_append] at hp
        simpa using hp
      · obtain ⟨c, cs2, hc, hd⟩ := natChars_head n.natAbs
        obtain ⟨hws, hdash, h1, h2, h3, h4, h5, h6, -, -, -⟩ := isDigit_ne hd
        have hshape : printChars (.num n) ++ rest = c :: (cs2 ++ rest) := by
          show intChars n ++ rest = _
          rw [intChars, if_neg hneg, hc, List.cons_append]
        rw [hshape, parseValue, skipWs_cons _ hws]
        have hp := parseNum_print n rest hrest
        rw [intChars, if_neg hneg, hc, List.cons_append] at hp
        simpa [h1, h2, h3, h4, h5, h6] using hp
  | hs s =>
    intro _ _ f rest hf hrest
    cases f with
    | zero =>
      have h1 : fuelV (.str s) = 1 := rfl
      omega
    | succ f2 =>
      have hshape : printChars (.str s) ++ rest = '"' :: (escList s.data ++ '"' :: rest) := by
        show ('"' :: (escList s.data ++ ['"'])) ++ rest = _
        rw [List.cons_append, List.append_assoc]
        rfl
      rw [hshape, parseValue, skipWs_cons _ (by decide)]
      simp [parseStringBody_escList, stringMk_data]
  | ha xs ih =>
    intro hnu hko f rest hf hrest
    cases xs with
    | nil =>
      cases f with
      | zero => exact absurd hf (by decide)
      | succ f2 =>
        show parseValue (f2 + 1) ('[' :: ']' :: rest) = some (.arr [], rest)
        rw [parseValue, skipWs_cons _ (by decide)]
        simp [skipWs_cons _ (by decide : isWs ']' = false)]
    | cons x xs2 =>
      cases f with
      | zero =>
        have : fuelV (.arr (x :: xs2)) = 1 + fuelE (x :: xs2) := rfl
        omega
      | succ f2 =>
        have hfe : fuelE (x :: xs2) ≤ f2 := by
          have : fuelV (.arr (x :: xs2)) = 1 + fuelE (x :: xs2) := rfl
          omega
        have hall : ∀ z ∈ x :: xs2, ParsePrintOk z := fun z hz =>
          ih z hz (jsListAll_mem hnu z hz) (keysOkList_mem hko z hz)
        have hq := parseElems_print (x :: xs2) hall (by simp) f2 rest hfe hrest
        obtain ⟨c2, cs2, hpe, hws2, hbr, -, -⟩ := printElems_head x xs2
        have hshape : printChars (.arr (x :: xs2)) ++ rest =
            '[' :: (printElems (x :: xs2) ++ ']' :: rest) := by
          show ('[' :: (printElems (x :: xs2) ++ [']'])) ++ rest = _
          rw [List.cons_append, List.append_assoc]
          rfl
        have hsw : skipWs (printElems (x :: xs2) ++ ']' :: rest) =
            c2 :: (cs2 ++ ']' :: rest) := by
          rw [hpe, List.cons_append, skipWs_cons _ hws2]
        rw [hpe, List.cons_append] at hq
        rw [hshape, parseValue, skipWs_cons _ (by decide)]
        simp [hsw, hbr, hq]
  | ho fs ih =>
    intro hnu hko f rest hf hrest
    have hdk : keysDistinct (fs.map Prod.fst) = true := by
      have h2 : keysOk (.obj fs) = (keysDistinct (fs.map Prod.fst) && keysOkFields fs) := rfl
      rw [h2, Bool.and_eq_true] at hko
      exact hko.1
    have hkf : keysOkFields fs = true := by
      have h2 : keysOk (.obj fs) = (keysDistinct (fs.map Prod.fst) && keysOkFields fs) := rfl
      rw [h2, Bool.and_eq_true] at hko
      exact hko.2
    cases fs with
    | nil =>
      cases f with
      | zero => exact absurd hf (by decide)
      | succ f2 =>
        show parseValue (f2 + 1) ('{' :: '}' :: rest) = some (.obj [], rest)
        rw [parseValue, skipWs_cons _ (by decide)]
        simp [skipWs_cons _ (by decide : isWs '}' = false)]
    | cons kv gs =>
      cases f with
      | zero =>
        have : fuelV (.obj (kv :: gs)) = 1 + fuelM (kv :: gs) := rfl
        omega
      | succ f2 =>
        have hfm : fuelM (kv :: gs) ≤ f2 := by
          have : fuelV (.obj (kv :: gs)) = 1 + fuelM (kv :: gs) := rfl
          omega
        have hall : ∀ z ∈ kv :: gs, ParsePrintOk z.2 := fun z hz =>
          ih z hz (jsFieldsAll_mem hnu z hz) (keysOkFields_mem hkf z hz)
        have hq := parseMembers_print (kv :: gs) hall (by simp) hdk f2 rest hfm hrest
        obtain ⟨cs2, hpm⟩ := printMembers_head kv gs
        have hshape : printChars (.obj (kv :: gs)) ++ rest =
            '{' :: (printMembers (kv :: gs) ++ '}' :: rest) := by
          show ('{' :: (printMembers (kv :: gs) ++ ['}'])) ++ rest = _
          rw [List.cons_append, List.append_assoc]
          rfl
        have hsw : skipWs (printMembers (kv :: gs) ++ '}' :: rest) =
            '"' :: (cs2 ++ '}' :: rest) := by
          rw [hpm, List.cons_append, skipWs_cons _ (by decide)]
        rw [hpm, List.cons_append] at hq
        rw [hshape, parseValue, skipWs_cons _ (by decide)]
        simp [hsw, hq]

theorem printChars_length_pos (v : JSValue) : 1 ≤ (printChars v).length := by
  obtain ⟨c, cs, hc, -⟩ := printChars_head v
  rw [hc]
  simp

theorem fuelE_le (xs : List JSValue)
    (h : ∀ x ∈ xs, fuelV x ≤ (printChars x).length + 1) :
    fuelE xs ≤ (printElems xs).length + 2 := by
  induction xs with
  | nil => decide
  | cons x xs ih =>
    have hx := h x (by simp)
    have hlen := printChars_length_pos x
    cases xs with
    | nil =>
      have h1 : fuelE [x] = 1 + max (fuelV x) (fuelE []) := rfl
      have h2 : fuelE ([] : List JSValue) = 1 := rfl
      have h3 : printElems [x] = printChars x := rfl
      rw [h1, h2, h3]
      omega
    | cons y ys =>
      have hrec := ih (fun z hz => h z (by simp [hz]))
      have h1 : fuelE (x :: y :: ys) = 1 + max (fuelV x) (fuelE (y :: ys)) := rfl
      have h3 : printElems (x :: y :: ys) = printChars x ++ ',' :: printElems (y :: ys) := by
        simp only [printElems]
      rw [h1, h3]
      simp only [List.length_append, List.length_cons]
      omega

theorem fuelM_le (fs : List (String × JSValue))
    (h : ∀ kv ∈ fs, fuelV kv.2 ≤ (printChars kv.2).length + 1) :
    fuelM fs ≤ (printMembers fs).length + 2 := by
  induction fs with
  | nil => decide
  | cons kv fs ih =>
    obtain ⟨k, v⟩ := kv
    have hx : fuelV v ≤ (printChars v).length + 1 := h (k, v) (by simp)
    have hlen := printChars_length_pos v
    cases fs with
    | nil =>
      have h1 : fuelM [(k, v)] = 1 + max (fuelV v) (fuelM []) := rfl
      have h2 : fuelM ([] : List (String × JSValue)) = 1 := rfl
      have h3 : printMembers [(k, v)] = '"' :: (escList k.data ++ '"' :: ':' :: printChars v) := by
        simp only [printMembers]
      rw [h1, h2, h3]
      simp only [List.length_cons, List.length_append]
      omega
    | cons kv2 gs =>
      have hrec := ih (fun z hz => h z (by simp [hz]))
      have h1 : fuelM ((k, v) :: kv2 :: gs) = 1 + max (fuelV v) (fuelM (kv2 :: gs)) := rfl
      have h3 : printMembers ((k, v) :: kv2 :: gs) =
          '"' :: (escList k.data ++ '"' :: ':' :: printChars v) ++
            ',' :: printMembers (kv2 :: gs) := by
        simp only [printMembers]
      rw [h1, h3]
      simp only [List.length_cons, List.length_append]
      omega

theorem fuel_le_print : ∀ v : JSValue, fuelV v ≤ (printChars v).length + 1 := by
  intro v
  induction v using JSValue.indOn with
  | hu => decide
  | hn => decide
  | hb b => cases b <;> decide
  | hm n =>
    have h1 : fuelV (.num n) = 1 := rfl
    have h2 := printChars_length_pos (.num n)
    omega
  | hs s =>
    have h1 : fuelV (.str s) = 1 := rfl
    have h2 := printChars_length_pos (.str s)
    omega
  | ha xs ih =>
    have h1 : fuelV (.arr xs) = 1 + fuelE xs := rfl
    have h2 : printChars (.arr xs) = '[' :: (printElems xs ++ [']']) := rfl
    have h3 := fuelE_le xs ih
    rw [h1, h2]
    simp only [List.length_cons, List.length_append]
    omega
  | ho fs ih =>
    have h1 : fuelV (.obj fs) = 1 + fuelM fs := rfl
    have h2 : printChars (.obj fs) = '{' :: (printMembers fs ++ ['}']) := rfl
    have h3 := fuelM_le fs ih
    rw [h1, h2]
    simp only [List.length_cons, List.length_append]
    omega

theorem jsonParse_stringify (v : JSValue) (hnu : noUndef v = true)
    (hko : keysOk v = true) : jsonParse (stringify v) = some v := by
  have hfuel := fuel_le_print v
  have h := parse_print v hnu hko ((printChars v).length + 1) [] hfuel rfl
  rw [List.append_nil] at h
  show (match parseValue ((printChars v).length + 1) (printChars v) with
    | some (v, rest) => if skipWs rest = [] then some v else none
    | none => none) = some v
  rw [h]
  simp [skipWs]

theorem dropWhile_append_of_all {p : Char → Bool} {l1 l2 : List Char}
    (h : ∀ c ∈ l1, p c = true) :
    List.dropWhile p (l1 ++ l2) = List.dropWhile p l2 := by
  induction l1 with
  | nil => simp
  | cons a l ih =>
    simp [List.dropWhile_cons, h a (by simp), ih (fun c hc => h c (by simp [hc]))]

theorem parseValue_backtick (f : Nat) (l : List Char) : parseValue f ('`' :: l) = none := by
  cases f with
  | zero => rfl
  | succ f2 =>
    rw [parseValue, skipWs_cons _ (by decide)]
    have hd : isDigit '`' = false := by decide
    simp [parseNum, hd]

theorem jsonParse_fenced_none (u : String) (l : List Char)
    (h : u.data = '`' :: l) : jsonParse u = none := by
  unfold jsonParse
  rw [h, parseValue_backtick]

theorem braceSpan_fenced (fs : List (String × JSValue)) :
    braceSpan ("```json\n" ++ stringify (.obj fs) ++ "\n```") =
      some (stringify (.obj fs)) := by
  have hp : printChars (.obj fs) = '{' :: (printMembers fs ++ ['}']) := rfl
  have hdata : ("```json\n" ++ stringify (.obj fs) ++ "\n```").data =
      ['`', '`', '`', 'j', 's', 'o', 'n', '\n'] ++
        (('{' :: (printMembers fs ++ ['}'])) ++ ['\n', '`', '`', '`']) := by
    rw [String.data_append, String.data_append, List.append_assoc]
    show _ ++ ((String.mk (printChars (.obj fs))).data ++ _) = _
    rw [show (String.mk (printChars (.obj fs))).data = printChars (.obj fs) from rfl, hp]
  have h1 : List.dropWhile (fun c => !(c = '{'))
      (("```json\n" ++ stringify (.obj fs) ++ "\n```").data) =
      '{' :: ((printMembers fs ++ ['}']) ++ ['\n', '`', '`', '`']) := by
    rw [hdata,
      dropWhile_append_of_all (by decide :
        ∀ c ∈ ['`', '`', '`', 'j', 's', 'o', 'n', '\n'], (!(c = '{')) = true),
      List.cons_append, List.dropWhile_cons]
    simp
  have h2 : (('{' : Char) :: ((printMembers fs ++ ['}']) ++ ['\n', '`', '`', '`'])).reverse =
      ['`', '`', '`', '\n'] ++ ('}' :: ((printMembers fs).reverse ++ ['{'])) := by
    simp [List.reverse_cons, List.reverse_append]
  have h3 : List.dropWhile (fun c => !(c = '}'))
      (['`', '`', '`', '\n'] ++ ('}' :: ((printMembers fs).reverse ++ ['{']))) =
      '}' :: ((printMembers fs).reverse ++ ['{']) := by
    rw [dropWhile_append_of_all (by decide :
      ∀ c ∈ ['`', '`', '`', '\n'], (!(c = '}')) = true), List.dropWhile_cons]
    simp
  have h4 : (('}' : Char) :: ((printMembers fs).reverse ++ ['{'])).reverse =
      '{' :: (printMembers fs ++ ['}']) := by
    simp [List.reverse_cons, List.reverse_append]
  simp only [braceSpan, braceSpanChars]
  rw [h1, h2, h3, h4]
  rw [show stringify (JSValue.obj fs) = String.mk ('{' :: (printMembers fs ++ ['}'])) from
    by rw [stringify, hp]]
  simp

/-- C5: `repairJson` returns the direct parse of the whole text when that
parse succeeds; otherwise, when the text holds a first opening brace with a
later closing brace, it returns the parse of the span from the first opening
brace through the last closing brace; consequently `repairJson` inverts
`stringify` on every JSON object (distinct keys, no undefined), also when
the object is wrapped in a markdown code fence. -/
theorem C5_repair_structure :
    (∀ t v, jsonParse t = some v → repairJson t = .ok v) ∧
    (∀ t s v, jsonParse t = none → braceSpan t = some s → jsonParse s = some v →
      repairJson t = .ok v) ∧
    (∀ fs, noUndef (.obj fs) = true → keysOk (.obj fs) = true →
      repairJson (stringify (.obj fs)) = .ok (.obj fs)) ∧
    (∀ fs, noUndef (.obj fs) = true → keysOk (.obj fs) = true →
      repairJson ("```json\n" ++ stringify (.obj fs) ++ "\n```") = .ok (.obj fs)) := by
  have hdirect : ∀ t v, jsonParse t = some v → repairJson t = .ok v := by
    intro t v h
    unfold repairJson
    rw [h]
  have hspan : ∀ t s v, jsonParse t = none → braceSpan t = some s →
      jsonParse s = some v → repairJson t = .ok v := by
    intro t s v h1 h2 h3
    unfold repairJson
    simp [h1, h2, h3]
  refine ⟨hdirect, hspan, ?_, ?_⟩
  · intro fs h1 h2
    exact hdirect _ _ (jsonParse_stringify _ h1 h2)
  · intro fs h1 h2
    refine hspan _ _ _ ?_ (braceSpan_fenced fs) (jsonParse_stringify _ h1 h2)
    refine jsonParse_fenced_none _ ('`' :: '`' :: 'j' :: 's' :: 'o' :: 'n' :: '\n' ::
      ((stringify (.obj fs)).data ++ ['\n', '`', '`', '`'])) ?_
    rw [String.data_append, String.data_append]
    rfl

/-- C5 witness: the round trip and the fenced recovery at the concrete
object from the specification, and the two structural clauses at concrete
texts. -/
theorem C5_repair_structure_witness :
    repairJson (stringify (.obj [("title", .str "A"), ("steps", .arr [])])) =
      .ok (.obj [("title", .str "A"), ("steps", .arr [])]) ∧
    repairJson ("```json\n" ++ stringify (.obj [("title", .str "A"), ("steps", .arr [])]) ++
      "\n```") = .ok (.obj [("title", .str "A"), ("steps", .arr [])]) := by
  constructor
  · exact C5_repair_structure.2.2.1 [("title", .str "A"), ("steps", .arr [])]
      (by decide) (by decide)
  · exact C5_repair_structure.2.2.2 [("title", .str "A"), ("steps", .arr [])]
      (by decide) (by decide)
